import Mathlib

/-!
Verification of the spec of chuckie82/DiffusionMap against a shallow embedding of
`util.py` and `WeightMat.py`.

Conventions of the embedding:
* numpy integer arrays become `List ℤ` (or `List ℕ` where the source only ever
  stores natural numbers); floating-point correlation values become `ℚ` — the code
  under study only compares, concatenates and selects values, it never does float
  arithmetic inside the claims being checked.
* numpy slice assignment `a[s:e] = v` becomes an explicit take/append/drop
  rewrite; where numpy would raise a broadcast `ValueError` (length mismatch) the
  embedded function returns `none`.
* `np.argsort` (ascending, stable for the small rows involved) is embedded as an
  insertion sort of the index list `[0, …, n-1]` ordered by value with index as
  tie break; `[:, :-(K+1):-1]` becomes `reverse.take K`.
* fallible code returns `Option`/`Except`.
-/

namespace DiffusionMap

/-! ## util.py: get_batch_num_list (lines 185-204) -/

/-- Embedding of `util.get_batch_num_list`: split `total_num` patterns into
`batch_num` batches, the first `total_num % batch_num` batches having one extra
pattern. -/
def get_batch_num_list (total_num batch_num : ℕ) : List ℕ :=
  let redundant_num := total_num % batch_num
  if redundant_num ≠ 0 then
    let number_per_batch := total_num / batch_num
    List.replicate redundant_num (number_per_batch + 1) ++
      List.replicate (batch_num - redundant_num) number_per_batch
  else
    let number_per_batch := total_num / batch_num
    List.replicate batch_num number_per_batch

/-! ## util.py: get_batch_idx_per_list (lines 385-417) -/

/-- `np.arange(a, b)` as a list of integers (empty when `b ≤ a`). -/
def npArange (a b : ℕ) : List ℤ :=
  (List.range (b - a)).map (fun i : ℕ => (a : ℤ) + (i : ℤ))

/-- numpy slice assignment `row[start:stop] = vals` on a 1-D integer array.
Returns `none` exactly when numpy/numba would raise a broadcast `ValueError`
(the value array's length differs from the slice's length, the slice staying
inside the row as it does at every call site of `get_batch_idx_per_list`). -/
def setSliceRow (row : List ℤ) (start stop : ℕ) (vals : List ℤ) : Option (List ℤ) :=
  if start ≤ stop ∧ stop ≤ row.length ∧ vals.length = stop - start then
    some (row.take start ++ vals ++ row.drop stop)
  else
    none

/-- Slice assignment `holder[r, start:stop] = vals` on a 2-D integer array held
as a list of rows. -/
def setRow (holder : List (List ℤ)) (r start stop : ℕ) (vals : List ℤ) :
    Option (List (List ℤ)) := do
  let row ← setSliceRow (holder.getD r []) start stop vals
  pure (holder.set r row)

/-- Embedding of `util.get_batch_idx_per_list`.  The source allocates a
`batch_num × (batch_num - 1)` zero matrix, sets row `0` to `arange(1, batch_num)`,
row `batch_num - 1` to `arange(batch_num - 1)`, and for every interior row `l`
sets `holder[l, :l] = arange(l)` and `holder[l, l:] = arange(l, batch_num)`.
The last assignment writes `batch_num - l` values into `batch_num - 1 - l` slots,
so it is `none` (a numpy broadcast `ValueError`) for every interior row. -/
def get_batch_idx_per_list (batch_num : ℕ) : Option (List (List ℤ)) :=
  let batch_num_per_line := batch_num - 1
  let holder : List (List ℤ) :=
    List.replicate batch_num (List.replicate batch_num_per_line 0)
  do
    let holder ← setRow holder 0 0 batch_num_per_line (npArange 1 batch_num)
    let holder ← setRow holder (batch_num - 1) 0 batch_num_per_line
      (npArange 0 batch_num_per_line)
    (List.range' 1 (batch_num - 1 - 1)).foldlM (fun h l => do
      let h ← setRow h l 0 l (npArange 0 l)
      setRow h l l batch_num_per_line (npArange l batch_num)) holder

/-- Claim C1 instantiated at one `batch_num`: for every unordered pair of
distinct batch indices `{l, m}`, the function returns an array and exactly one
of the two rows `l` and `m` contains the other member of the pair. -/
def pairVisitedExactlyOnceAt (batch_num : ℕ) : Prop :=
  get_batch_idx_per_list batch_num ≠ none ∧
    ∀ m : ℕ, m < batch_num → ∀ l : ℕ, l < m →
      Xor' ((m : ℤ) ∈ ((get_batch_idx_per_list batch_num).getD []).getD l [])
        ((l : ℤ) ∈ ((get_batch_idx_per_list batch_num).getD []).getD m [])

instance (batch_num : ℕ) : Decidable (pairVisitedExactlyOnceAt batch_num) := by
  unfold pairVisitedExactlyOnceAt
  infer_instance

lemma npArange_length (a b : ℕ) : (npArange a b).length = b - a := by
  unfold npArange
  rw [List.length_map, List.length_range]

lemma setSliceRow_of_length_ne (row : List ℤ) (start stop : ℕ) (vals : List ℤ)
    (h : vals.length ≠ stop - start) : setSliceRow row start stop vals = none := by
  simp only [setSliceRow, ite_eq_right_iff]
  intro hc
  exact absurd hc.2.2 h

lemma setRow_of_length_ne (holder : List (List ℤ)) (r start stop : ℕ) (vals : List ℤ)
    (h : vals.length ≠ stop - start) : setRow holder r start stop vals = none := by
  simp [setRow, setSliceRow_of_length_ne _ _ _ _ h]

lemma get_batch_idx_per_list_none (n : ℕ) (h : 3 ≤ n) :
    get_batch_idx_per_list n = none := by
  have hlen : (npArange 1 n).length ≠ (n - 1) - 1 := by
    rw [npArange_length]
    omega
  have hrange : List.range' 1 (n - 1 - 1) = 1 :: List.range' 2 (n - 3) := by
    have h' : n - 1 - 1 = (n - 3) + 1 := by omega
    rw [h', List.range'_succ]
  unfold get_batch_idx_per_list
  dsimp only
  simp only [hrange]
  cases h0 : setRow (List.replicate n (List.replicate (n - 1) 0)) 0 0 (n - 1)
      (npArange 1 n) with
  | none => simp [h0]
  | some h1 =>
    simp only [Option.bind_eq_bind, Option.some_bind]
    cases h2 : setRow h1 (n - 1) 0 (n - 1) (npArange 0 (n - 1)) with
    | none => simp [h2]
    | some h3 =>
      simp only [Option.bind_eq_bind, Option.some_bind, List.foldlM_cons]
      cases h4 : setRow h3 1 0 1 (npArange 0 1) with
      | none => simp [h4]
      | some h5 =>
        simp only [Option.bind_eq_bind, Option.some_bind,
          setRow_of_length_ne _ _ _ _ _ hlen, Option.none_bind]

/-- CLAIM C2 (code_bug): the claim — row `l` of
`get_batch_idx_per_list(batch_num)` lists exactly the indices
`{0, …, batch_num-1} \ {l}` — matches the function's own docstring, but for
every `batch_num ≥ 3` the function instead raises a numpy broadcast
`ValueError`: the interior-row assignment `holder[l, l:] = arange(l, batch_num)`
writes `batch_num - l` values into `batch_num - 1 - l` slots.  At the failing
input `batch_num = 3` the embedded function returns `none` (the error), so no
row ever lists the other batches. -/
theorem C2_get_batch_idx_per_list_raises_at_3 :
    get_batch_idx_per_list 3 = none ∧ get_batch_idx_per_list 2 = some [[1], [0]] :=
  ⟨by decide, by decide⟩

/-- CLAIM C1 (corrected), counterexample: at `batch_num = 2` — the only
`batch_num ≥ 2` for which `get_batch_idx_per_list` returns at all — the claim
"exactly one of the two rows `l`, `m` contains the other pair member" is false:
row `0 = [1]` and row `1 = [0]` each contain the other member of the pair
`{0, 1}`, so the pair is visited by both of its workers, not exactly one. -/
theorem C1_counterexample : ¬ pairVisitedExactlyOnceAt 2 := by
  decide

/-- CLAIM C1 (corrected), amended: for `batch_num = 2` the returned array is
`[[1], [0]]`, so the unordered pair `{0, 1}` is visited by both of its
participating workers (each row contains the other's index); and for every
`batch_num ≥ 3` the function raises a broadcast `ValueError` (embedded as
`none`) before returning any pairing, because `holder[l, l:]` receives one
value too many. -/
theorem C1_amended :
    get_batch_idx_per_list 2 = some [[1], [0]] ∧
      ((1 : ℤ) ∈ [(1 : ℤ)] ∧ (0 : ℤ) ∈ [(0 : ℤ)]) ∧
      ∀ n : ℕ, 3 ≤ n → get_batch_idx_per_list n = none :=
  ⟨by decide, ⟨by decide, by decide⟩, fun n hn => get_batch_idx_per_list_none n hn⟩

/-- Witness for `C1_amended`: its universally quantified part applied at the
concrete input `batch_num = 3`. -/
theorem C1_amended_witness : 3 ≤ 3 ∧ get_batch_idx_per_list 3 = none :=
  ⟨by decide, C1_amended.2.2 3 (by decide)⟩

lemma get_batch_num_list_ceil (total_num batch_num : ℕ) (hb : 1 ≤ batch_num)
    (hr : total_num % batch_num ≠ 0) :
    (total_num + batch_num - 1) / batch_num = total_num / batch_num + 1 := by
  have hmod := Nat.div_add_mod total_num batch_num
  have hlt : total_num % batch_num < batch_num := Nat.mod_lt _ hb
  have hexp : batch_num * (total_num / batch_num + 1) =
      batch_num * (total_num / batch_num) + batch_num := by ring
  have hyp : total_num + batch_num - 1 =
      batch_num * (total_num / batch_num + 1) + (total_num % batch_num - 1) := by
    omega
  have hdiv : (total_num % batch_num - 1) / batch_num = 0 :=
    Nat.div_eq_of_lt (by omega)
  rw [hyp, Nat.mul_add_div (show 0 < batch_num by omega)]
  omega

/-- CLAIM C5 (confirmed): for `total_num ≥ 1`, `batch_num ≥ 1`,
`get_batch_num_list(total_num, batch_num)` has length `batch_num`, sums to
`total_num`, its first `total_num mod batch_num` elements all equal
`⌈total_num/batch_num⌉`, its remaining elements all equal
`⌊total_num/batch_num⌋`, and any two of its elements differ by at most `1`. -/
theorem C5_get_batch_num_list_spec (total_num batch_num : ℕ)
    (ht : 1 ≤ total_num) (hb : 1 ≤ batch_num) :
    (get_batch_num_list total_num batch_num).length = batch_num ∧
    (get_batch_num_list total_num batch_num).sum = total_num ∧
    (get_batch_num_list total_num batch_num).take (total_num % batch_num) =
      List.replicate (total_num % batch_num) ((total_num + batch_num - 1) / batch_num) ∧
    (get_batch_num_list total_num batch_num).drop (total_num % batch_num) =
      List.replicate (batch_num - total_num % batch_num) (total_num / batch_num) ∧
    ∀ x ∈ get_batch_num_list total_num batch_num,
      ∀ y ∈ get_batch_num_list total_num batch_num, x ≤ y + 1 := by
  have hmod := Nat.div_add_mod total_num batch_num
  have hlt : total_num % batch_num < batch_num := Nat.mod_lt _ hb
  unfold get_batch_num_list
  by_cases hr : total_num % batch_num ≠ 0
  · simp only [if_pos hr]
    refine ⟨?_, ?_, ?_, ?_, ?_⟩
    · rw [List.length_append, List.length_replicate, List.length_replicate]
      omega
    · rw [List.sum_append, List.sum_replicate, List.sum_replicate, smul_eq_mul,
        smul_eq_mul, Nat.mul_add, Nat.mul_one, Nat.sub_mul]
      have hle : (total_num % batch_num) * (total_num / batch_num) ≤
          batch_num * (total_num / batch_num) :=
        Nat.mul_le_mul_right _ (Nat.le_of_lt hlt)
      have hcomm : batch_num * (total_num / batch_num) =
          (total_num / batch_num) * batch_num := Nat.mul_comm _ _
      omega
    · rw [get_batch_num_list_ceil total_num batch_num hb hr]
      exact List.take_left' (List.length_replicate _ _)
    · exact List.drop_left' (List.length_replicate _ _)
    · intro x hx y hy
      rw [List.mem_append, List.mem_replicate, List.mem_replicate] at hx hy
      rcases hx with hx | hx <;> rcases hy with hy | hy <;> omega
  · simp only [if_neg hr]
    push_neg at hr
    refine ⟨List.length_replicate _ _, ?_, ?_, ?_, ?_⟩
    · rw [List.sum_replicate, smul_eq_mul]
      omega
    · rw [hr, List.take_zero, List.replicate_zero]
    · rw [hr, List.drop_zero, Nat.sub_zero]
    · intro x hx y hy
      rw [List.mem_replicate] at hx hy
      omega

/-- Witness for `C5_get_batch_num_list_spec` at `total_num = 5`,
`batch_num = 3` (so the split is `[2, 2, 1]`). -/
theorem C5_witness :
    1 ≤ 5 ∧ 1 ≤ 3 ∧
    ((get_batch_num_list 5 3).length = 3 ∧
     (get_batch_num_list 5 3).sum = 5 ∧
     (get_batch_num_list 5 3).take (5 % 3) = List.replicate (5 % 3) ((5 + 3 - 1) / 3) ∧
     (get_batch_num_list 5 3).drop (5 % 3) = List.replicate (3 - 5 % 3) (5 / 3) ∧
     ∀ x ∈ get_batch_num_list 5 3, ∀ y ∈ get_batch_num_list 5 3, x ≤ y + 1) :=
  ⟨by decide, by decide, C5_get_batch_num_list_spec 5 3 (by decide) (by decide)⟩

/-! ## util.py: assemble_mat (lines 453-520)

The filesystem state the aggregator sees is abstracted as
* `folderIsDir : Bool` — whether `output_path + '/distances'` is a directory,
* `patches : ℕ → ℕ → Option NpMat` — the contents of `patch_l_m.npy`
  (`none` when the file is absent).
A numpy 2-D float array is a list of rows of rationals; its `shape[0]` is the
number of rows and its `shape[1]` the length of its first row. -/

/-- A numpy 2-D float array, held as a list of rows. -/
abbrev NpMat := List (List ℚ)

/-- `array.shape[0]`. -/
def npShape0 (p : NpMat) : ℕ := p.length

/-- `array.shape[1]`. -/
def npShape1 (p : NpMat) : ℕ := (p.headD []).length

/-- The exceptions `assemble_mat` can raise: the folder check, the
completeness check, a failing `np.load`, the recorded-size check, and a
broadcast failure of the block slice assignment. -/
inductive AssembleError where
  | notAFolder : AssembleError
  | incompletePatches : AssembleError
  | loadFailure : ℕ → ℕ → AssembleError
  | sizeMismatch : ℕ → ℕ → AssembleError
  | broadcastFailure : ℕ → ℕ → AssembleError
deriving DecidableEq

/-- Row `r` of the result of the block assignment
`holder[r0:r0+p, c0:c0+q] = patch`: rows inside the targeted range get the
patch row spliced in at column `c0`, other rows are unchanged. -/
def writeBlockRow (holder : NpMat) (r0 c0 : ℕ) (patch : NpMat) (r : ℕ) : List ℚ :=
  if r0 ≤ r ∧ r < r0 + patch.length then
    (holder.getD r []).take c0 ++ patch.getD (r - r0) [] ++
      (holder.getD r []).drop (c0 + (patch.getD (r - r0) []).length)
  else holder.getD r []

/-- numpy block assignment `holder[r0:r0+p, c0:c0+q] = patch`: rewrites the
targeted rows, and fails (broadcast error) if the block does not fit inside
`holder`. -/
def writeBlock (holder : NpMat) (r0 c0 : ℕ) (patch : NpMat) : Option NpMat :=
  if r0 + patch.length ≤ holder.length ∧
      ∀ i < patch.length, c0 + (patch.getD i []).length ≤ (holder.getD (r0 + i) []).length then
    some ((List.range holder.length).map (writeBlockRow holder r0 c0 patch))
  else none

/-- The inner loop of `assemble_mat` (`for m in range(l, batch_num)`): load
`patch_l_m.npy`, check its shape against
`(batch_size_list[l], batch_size_list[m])`, write it at
`holder[start_dim_0:end_dim_0, start_dim_1:end_dim_1]`, and advance
`start_dim_1` by `batch_size_list[m]`. -/
def assembleInner (patches : ℕ → ℕ → Option NpMat) (batch_size_list : List ℕ)
    (l start_dim_0 : ℕ) :
    List ℕ → ℕ → NpMat → Except AssembleError NpMat
  | [], _, holder => .ok holder
  | m :: ms, start_dim_1, holder =>
    match patches l m with
    | none => .error (.loadFailure l m)
    | some patch =>
      if npShape0 patch ≠ batch_size_list.getD l 0 ∨
          npShape1 patch ≠ batch_size_list.getD m 0 then
        .error (.sizeMismatch l m)
      else
        match writeBlock holder start_dim_0 start_dim_1 patch with
        | none => .error (.broadcastFailure l m)
        | some holder' =>
          assembleInner patches batch_size_list l start_dim_0 ms
            (start_dim_1 + batch_size_list.getD m 0) holder'

/-- The outer loop of `assemble_mat` (`for l in range(batch_num)`): run the
inner loop over `m ∈ [l, batch_num)` with `start_dim_1` starting at
`start_dim_0`, then advance `start_dim_0` by `batch_size_list[l]`. -/
def assembleOuter (patches : ℕ → ℕ → Option NpMat) (batch_size_list : List ℕ)
    (batch_num : ℕ) :
    List ℕ → ℕ → NpMat → Except AssembleError NpMat
  | [], _, holder => .ok holder
  | l :: ls, start_dim_0, holder =>
    match assembleInner patches batch_size_list l start_dim_0
        (List.range' l (batch_num - l)) start_dim_0 holder with
    | .error e => .error e
    | .ok holder' =>
      assembleOuter patches batch_size_list batch_num ls
        (start_dim_0 + batch_size_list.getD l 0) holder'

/-- Embedding of `util.assemble_mat`: check the distances folder, check that
every `patch_l_m.npy` with `0 ≤ l ≤ m < batch_num` is present, then assemble
the patches into an upper-triangular `total_num × total_num` matrix
initialized to zeros. -/
def assemble_mat (folderIsDir : Bool) (patches : ℕ → ℕ → Option NpMat)
    (batch_num total_num : ℕ) (batch_size_list : List ℕ) :
    Except AssembleError NpMat :=
  if folderIsDir = false then .error .notAFolder
  else if ¬ (∀ l, l < batch_num → ∀ m, m < batch_num → l ≤ m →
      (patches l m).isSome = true) then .error .incompletePatches
  else
    assembleOuter patches batch_size_list batch_num (List.range batch_num) 0
      (List.replicate total_num (List.replicate total_num (0 : ℚ)))

lemma assembleInner_ok_shapes (patches : ℕ → ℕ → Option NpMat)
    (batch_size_list : List ℕ) (l start_dim_0 : ℕ) :
    ∀ (ms : List ℕ) (start_dim_1 : ℕ) (holder M : NpMat),
      assembleInner patches batch_size_list l start_dim_0 ms start_dim_1 holder =
        .ok M →
      ∀ m ∈ ms, ∃ p, patches l m = some p ∧
        npShape0 p = batch_size_list.getD l 0 ∧
        npShape1 p = batch_size_list.getD m 0 := by
  intro ms
  induction ms with
  | nil => intro _ _ _ _ m hm; exact absurd hm (List.not_mem_nil m)
  | cons m₀ ms ih =>
    intro start_dim_1 holder M hok m hm
    rw [assembleInner] at hok
    cases hp : patches l m₀ with
    | none => simp only [hp] at hok; exact Except.noConfusion hok
    | some patch =>
      simp only [hp] at hok
      by_cases hsh : npShape0 patch ≠ batch_size_list.getD l 0 ∨
          npShape1 patch ≠ batch_size_list.getD m₀ 0
      · rw [if_pos hsh] at hok; exact absurd hok (by simp)
      · rw [if_neg hsh] at hok
        push_neg at hsh
        cases hw : writeBlock holder start_dim_0 start_dim_1 patch with
        | none => simp only [hw] at hok; exact Except.noConfusion hok
        | some holder' =>
          simp only [hw] at hok
          rcases List.mem_cons.mp hm with hm | hm
          · exact hm ▸ ⟨patch, hp, hsh.1, hsh.2⟩
          · exact ih _ _ _ hok m hm

lemma assembleOuter_ok_shapes (patches : ℕ → ℕ → Option NpMat)
    (batch_size_list : List ℕ) (batch_num : ℕ) :
    ∀ (ls : List ℕ) (start_dim_0 : ℕ) (holder M : NpMat),
      assembleOuter patches batch_size_list batch_num ls start_dim_0 holder =
        .ok M →
      ∀ l ∈ ls, ∀ m ∈ List.range' l (batch_num - l),
        ∃ p, patches l m = some p ∧
          npShape0 p = batch_size_list.getD l 0 ∧
          npShape1 p = batch_size_list.getD m 0 := by
  intro ls
  induction ls with
  | nil => intro _ _ _ _ l hl; exact absurd hl (List.not_mem_nil l)
  | cons l₀ ls ih =>
    intro start_dim_0 holder M hok l hl m hm
    rw [assembleOuter] at hok
    cases hin : assembleInner patches batch_size_list l₀ start_dim_0
        (List.range' l₀ (batch_num - l₀)) start_dim_0 holder with
    | error e => simp only [hin] at hok; exact Except.noConfusion hok
    | ok holder' =>
      simp only [hin] at hok
      rcases List.mem_cons.mp hl with hl | hl
      · subst hl
        exact assembleInner_ok_shapes patches batch_size_list l start_dim_0 _ _ _ _
          hin m hm
      · exact ih _ _ _ hok l hl m hm

/-- CLAIM C9 (confirmed): `assemble_mat` raises (returns an `AssembleError`,
never a matrix) whenever some expected patch `patch_l_m.npy` with
`0 ≤ l ≤ m < batch_num` is absent, or some present patch's 2-D shape differs
from the recorded `(batch_size_list[l], batch_size_list[m])`. -/
theorem C9_assemble_mat_rejects (folderIsDir : Bool)
    (patches : ℕ → ℕ → Option NpMat) (batch_num total_num : ℕ)
    (batch_size_list : List ℕ)
    (hbad : (∃ l m, l ≤ m ∧ m < batch_num ∧ patches l m = none) ∨
      (∃ l m, l ≤ m ∧ m < batch_num ∧ ∃ p, patches l m = some p ∧
        (npShape0 p ≠ batch_size_list.getD l 0 ∨
         npShape1 p ≠ batch_size_list.getD m 0))) :
    ∀ M, assemble_mat folderIsDir patches batch_num total_num batch_size_list ≠
      .ok M := by
  intro M hok
  unfold assemble_mat at hok
  by_cases hf : folderIsDir = false
  · rw [if_pos hf] at hok; exact absurd hok (by simp)
  · rw [if_neg hf] at hok
    by_cases hall : ¬ (∀ l, l < batch_num → ∀ m, m < batch_num → l ≤ m →
        (patches l m).isSome = true)
    · rw [if_pos hall] at hok; exact absurd hok (by simp)
    · rw [if_neg hall] at hok
      push_neg at hall
      rcases hbad with ⟨l, m, hlm, hmb, hnone⟩ | ⟨l, m, hlm, hmb, p, hp, hshape⟩
      · have := hall l (lt_of_le_of_lt hlm hmb) m hmb hlm
        rw [hnone] at this
        exact absurd this (by simp)
      · have hmem_l : l ∈ List.range batch_num :=
          List.mem_range.mpr (lt_of_le_of_lt hlm hmb)
        have hmem_m : m ∈ List.range' l (batch_num - l) := by
          rw [List.mem_range']
          exact ⟨m - l, by omega, by omega⟩
        obtain ⟨p', hp', hs0, hs1⟩ :=
          assembleOuter_ok_shapes patches batch_size_list batch_num _ _ _ _ hok
            l hmem_l m hmem_m
        rw [hp] at hp'
        cases Option.some.injEq .. ▸ hp' with
        | refl =>
          rcases hshape with hne | hne
          · exact hne hs0
          · exact hne hs1

/-- Witness for `C9_assemble_mat_rejects`: two batches of one sample each with
the off-diagonal patch `patch_0_1.npy` missing; the aggregator must reject. -/
theorem C9_witness :
    ((∃ l m, l ≤ m ∧ m < 2 ∧
        (fun l' m' => if l' = 0 ∧ m' = 0 then some [[(1 : ℚ)]]
          else if l' = 1 ∧ m' = 1 then some [[(1 : ℚ)]] else none) l m = none) ∨
      (∃ l m, l ≤ m ∧ m < 2 ∧ ∃ p,
        (fun l' m' => if l' = 0 ∧ m' = 0 then some [[(1 : ℚ)]]
          else if l' = 1 ∧ m' = 1 then some [[(1 : ℚ)]] else none) l m = some p ∧
        (npShape0 p ≠ [1, 1].getD l 0 ∨ npShape1 p ≠ [1, 1].getD m 0))) ∧
    ∀ M, assemble_mat true
      (fun l' m' => if l' = 0 ∧ m' = 0 then some [[(1 : ℚ)]]
        else if l' = 1 ∧ m' = 1 then some [[(1 : ℚ)]] else none) 2 2 [1, 1] ≠
      .ok M :=
  ⟨Or.inl ⟨0, 1, by decide, by decide, by decide⟩,
    C9_assemble_mat_rejects true _ 2 2 [1, 1]
      (Or.inl ⟨0, 1, by decide, by decide, by decide⟩)⟩

/-- The global offset at which batch `k`'s rows (and columns) start:
the sum of the sizes of the batches before it. -/
def bslStart (batch_size_list : List ℕ) (k : ℕ) : ℕ :=
  (batch_size_list.take k).sum

/-- Entry `(i, j)` of an embedded numpy matrix (out-of-range reads give `0`,
matching the all-zero initialization of the holder). -/
def matEntry (M : NpMat) (i j : ℕ) : ℚ := (M.getD i []).getD j 0

lemma bslStart_mono (bsl : List ℕ) {k k' : ℕ} (h : k ≤ k') :
    bslStart bsl k ≤ bslStart bsl k' := by
  unfold bslStart
  conv_rhs => rw [← List.take_append_drop k (bsl.take k')]
  rw [List.take_take, min_eq_left h, List.sum_append]
  exact Nat.le_add_right _ _

lemma bslStart_succ (bsl : List ℕ) {k : ℕ} (h : k < bsl.length) :
    bslStart bsl (k + 1) = bslStart bsl k + bsl.getD k 0 := by
  unfold bslStart
  rw [List.take_succ, List.sum_append, List.getElem?_eq_getElem h,
    List.getD_eq_getElem _ _ h]
  simp

lemma writeBlock_getD (holder : NpMat) (r0 c0 : ℕ) (patch : NpMat)
    (holder' : NpMat) (hw : writeBlock holder r0 c0 patch = some holder')
    (i : ℕ) (hi : i < holder.length) :
    holder'.getD i [] = writeBlockRow holder r0 c0 patch i := by
  unfold writeBlock at hw
  by_cases hc : r0 + patch.length ≤ holder.length ∧
      ∀ i' < patch.length,
        c0 + (patch.getD i' []).length ≤ (holder.getD (r0 + i') []).length
  · rw [if_pos hc, Option.some.injEq] at hw
    subst hw
    rw [List.getD_eq_getElem _ _ (by simpa using hi), List.getElem_map,
      List.getElem_range]
  · rw [if_neg hc] at hw
    exact Option.noConfusion hw

lemma writeBlock_length (holder : NpMat) (r0 c0 : ℕ) (patch : NpMat)
    (holder' : NpMat) (hw : writeBlock holder r0 c0 patch = some holder') :
    holder'.length = holder.length := by
  unfold writeBlock at hw
  by_cases hc : r0 + patch.length ≤ holder.length ∧
      ∀ i' < patch.length,
        c0 + (patch.getD i' []).length ≤ (holder.getD (r0 + i') []).length
  · rw [if_pos hc, Option.some.injEq] at hw
    subst hw
    rw [List.length_map, List.length_range]
  · rw [if_neg hc] at hw
    exact Option.noConfusion hw

lemma writeBlock_fits (holder : NpMat) (r0 c0 : ℕ) (patch : NpMat)
    (holder' : NpMat) (hw : writeBlock holder r0 c0 patch = some holder') :
    ∀ i' < patch.length,
      c0 + (patch.getD i' []).length ≤ (holder.getD (r0 + i') []).length := by
  unfold writeBlock at hw
  by_cases hc : r0 + patch.length ≤ holder.length ∧
      ∀ i' < patch.length,
        c0 + (patch.getD i' []).length ≤ (holder.getD (r0 + i') []).length
  · exact hc.2
  · rw [if_neg hc] at hw
    exact Option.noConfusion hw

lemma writeBlock_entry_col_lt (holder : NpMat) (r0 c0 : ℕ) (patch : NpMat)
    (holder' : NpMat) (hw : writeBlock holder r0 c0 patch = some holder')
    (i j : ℕ) (hj : j < c0) : matEntry holder' i j = matEntry holder i j := by
  unfold matEntry
  by_cases hi : i < holder.length
  · rw [writeBlock_getD holder r0 c0 patch holder' hw i hi]
    unfold writeBlockRow
    by_cases hir : r0 ≤ i ∧ i < r0 + patch.length
    · rw [if_pos hir]
      have hlt : i - r0 < patch.length := by omega
      have hfit := writeBlock_fits holder r0 c0 patch holder' hw (i - r0) hlt
      have hieq : r0 + (i - r0) = i := by omega
      rw [hieq] at hfit
      have hjrow : j < (holder.getD i []).length := by omega
      have htl : ((holder.getD i []).take c0).length = c0 := by
        rw [List.length_take]
        omega
      rw [List.append_assoc, List.getD_append _ _ _ _ (by rw [htl]; exact hj)]
      rw [List.getD_eq_getElem _ _ (by rw [htl]; exact hj),
        List.getElem_take, List.getD_eq_getElem _ _ hjrow]
    · rw [if_neg hir]
  · have h1 : holder'.getD i [] = ([] : List ℚ) :=
      List.getD_eq_default _ _
        (by rw [writeBlock_length holder r0 c0 patch holder' hw]; omega)
    have h2 : holder.getD i [] = ([] : List ℚ) :=
      List.getD_eq_default _ _ (by omega)
    rw [h1, h2]

lemma writeBlock_entry_row_out (holder : NpMat) (r0 c0 : ℕ) (patch : NpMat)
    (holder' : NpMat) (hw : writeBlock holder r0 c0 patch = some holder')
    (i j : ℕ) (hi : i < r0 ∨ r0 + patch.length ≤ i) :
    matEntry holder' i j = matEntry holder i j := by
  unfold matEntry
  by_cases hilen : i < holder.length
  · rw [writeBlock_getD holder r0 c0 patch holder' hw i hilen]
    unfold writeBlockRow
    rw [if_neg (by omega)]
  · have h1 : holder'.getD i [] = ([] : List ℚ) :=
      List.getD_eq_default _ _
        (by rw [writeBlock_length holder r0 c0 patch holder' hw]; omega)
    have h2 : holder.getD i [] = ([] : List ℚ) :=
      List.getD_eq_default _ _ (by omega)
    rw [h1, h2]

lemma assembleInner_preserves_lower (patches : ℕ → ℕ → Option NpMat)
    (bsl : List ℕ) (l m i j : ℕ) (hml : m < l) (hlb : l < bsl.length)
    (hi : bslStart bsl l ≤ i ∧ i < bslStart bsl l + bsl.getD l 0)
    (hj : bslStart bsl m ≤ j ∧ j < bslStart bsl m + bsl.getD m 0)
    (a : ℕ) :
    ∀ (k m₀ : ℕ), a ≤ m₀ → m₀ + k ≤ bsl.length →
      ∀ (holder M : NpMat),
        matEntry holder i j = 0 →
        assembleInner patches bsl a (bslStart bsl a) (List.range' m₀ k)
          (bslStart bsl m₀) holder = .ok M →
        matEntry M i j = 0 := by
  intro k
  induction k with
  | zero =>
    intro m₀ _ _ holder M hzero hok
    rw [List.range'_zero, assembleInner] at hok
    cases hok
    exact hzero
  | succ k ih =>
    intro m₀ ham hmk holder M hzero hok
    rw [List.range'_succ, assembleInner] at hok
    cases hp : patches a m₀ with
    | none => simp only [hp] at hok; exact Except.noConfusion hok
    | some patch =>
      simp only [hp] at hok
      by_cases hsh : npShape0 patch ≠ bsl.getD a 0 ∨ npShape1 patch ≠ bsl.getD m₀ 0
      · rw [if_pos hsh] at hok
        exact Except.noConfusion hok
      · rw [if_neg hsh] at hok
        push_neg at hsh
        cases hw : writeBlock holder (bslStart bsl a) (bslStart bsl m₀) patch with
        | none => simp only [hw] at hok; exact Except.noConfusion hok
        | some holder' =>
          simp only [hw] at hok
          have hm₀len : m₀ < bsl.length := by omega
          have hzero' : matEntry holder' i j = 0 := by
            rcases Nat.lt_trichotomy a l with hal | hal | hal
            · -- a < l : the written rows end before row i
              have : bslStart bsl (a + 1) ≤ bslStart bsl l := bslStart_mono bsl (by omega)
              rw [bslStart_succ bsl (by omega)] at this
              have hplen : patch.length = bsl.getD a 0 := hsh.1
              rw [writeBlock_entry_row_out holder _ _ patch holder' hw i j
                (Or.inr (by omega))]
              exact hzero
            · -- a = l : the written columns start at or after bslStart m₀ > j
              subst hal
              have h1 : bslStart bsl (m + 1) ≤ bslStart bsl a := bslStart_mono bsl (by omega)
              rw [bslStart_succ bsl (by omega)] at h1
              have h2 : bslStart bsl a ≤ bslStart bsl m₀ := bslStart_mono bsl ham
              rw [writeBlock_entry_col_lt holder _ _ patch holder' hw i j (by omega)]
              exact hzero
            · -- a > l : the written rows start after row i
              have : bslStart bsl (l + 1) ≤ bslStart bsl a := bslStart_mono bsl (by omega)
              rw [bslStart_succ bsl hlb] at this
              rw [writeBlock_entry_row_out holder _ _ patch holder' hw i j
                (Or.inl (by omega))]
              exact hzero
          have hstep : bslStart bsl m₀ + bsl.getD m₀ 0 = bslStart bsl (m₀ + 1) :=
            (bslStart_succ bsl hm₀len).symm
          rw [hstep] at hok
          exact ih (m₀ + 1) (by omega) (by omega) holder' M hzero' hok

lemma assembleOuter_preserves_lower (patches : ℕ → ℕ → Option NpMat)
    (bsl : List ℕ) (batch_num l m i j : ℕ) (hbn : bsl.length = batch_num)
    (hml : m < l) (hlb : l < batch_num)
    (hi : bslStart bsl l ≤ i ∧ i < bslStart bsl l + bsl.getD l 0)
    (hj : bslStart bsl m ≤ j ∧ j < bslStart bsl m + bsl.getD m 0) :
    ∀ (k a : ℕ), a + k ≤ batch_num →
      ∀ (holder M : NpMat),
        matEntry holder i j = 0 →
        assembleOuter patches bsl batch_num (List.range' a k) (bslStart bsl a)
          holder = .ok M →
        matEntry M i j = 0 := by
  intro k
  induction k with
  | zero =>
    intro a _ holder M hzero hok
    rw [List.range'_zero, assembleOuter] at hok
    cases hok
    exact hzero
  | succ k ih =>
    intro a hak holder M hzero hok
    rw [List.range'_succ, assembleOuter] at hok
    cases hin : assembleInner patches bsl a (bslStart bsl a)
        (List.range' a (batch_num - a)) (bslStart bsl a) holder with
    | error e => simp only [hin] at hok; exact Except.noConfusion hok
    | ok holder' =>
      simp only [hin] at hok
      have hzero' : matEntry holder' i j = 0 :=
        assembleInner_preserves_lower patches bsl l m i j hml (hbn ▸ hlb) hi hj a
          (batch_num - a) a (le_refl a) (by omega) holder holder' hzero hin
      have hstep : bslStart bsl a + bsl.getD a 0 = bslStart bsl (a + 1) :=
        (bslStart_succ bsl (by omega)).symm
      rw [hstep] at hok
      exact ih (a + 1) (by omega) holder' M hzero' hok

/-- CLAIM C10 (confirmed): the matrix returned by a successful `assemble_mat`
call is block upper-triangular — for every pair of batch indices `m < l`,
every entry in the block of rows owned by batch `l` and columns owned by
batch `m` is exactly `0`, because only patches with `m ≥ l` are ever written
into the zero-initialized holder. -/
theorem C10_assemble_mat_block_upper_triangular (folderIsDir : Bool)
    (patches : ℕ → ℕ → Option NpMat) (batch_num total_num : ℕ)
    (batch_size_list : List ℕ) (M : NpMat)
    (hbn : batch_size_list.length = batch_num)
    (hok : assemble_mat folderIsDir patches batch_num total_num batch_size_list =
      .ok M)
    (l m i j : ℕ) (hml : m < l) (hlb : l < batch_num)
    (hi : bslStart batch_size_list l ≤ i ∧
      i < bslStart batch_size_list l + batch_size_list.getD l 0)
    (hj : bslStart batch_size_list m ≤ j ∧
      j < bslStart batch_size_list m + batch_size_list.getD m 0) :
    matEntry M i j = 0 := by
  unfold assemble_mat at hok
  by_cases hf : folderIsDir = false
  · rw [if_pos hf] at hok; exact Except.noConfusion hok
  · rw [if_neg hf] at hok
    by_cases hall : ¬ (∀ l', l' < batch_num → ∀ m', m' < batch_num → l' ≤ m' →
        (patches l' m').isSome = true)
    · rw [if_pos hall] at hok; exact Except.noConfusion hok
    · rw [if_neg hall] at hok
      have hzero : matEntry
          (List.replicate total_num (List.replicate total_num (0 : ℚ))) i j = 0 := by
        unfold matEntry
        by_cases hi' : i < total_num
        · have h1 : (List.replicate total_num
              (List.replicate total_num (0 : ℚ))).getD i [] =
              List.replicate total_num (0 : ℚ) := by
            rw [List.getD_eq_getElem _ _ (by simpa using hi'),
              List.getElem_replicate]
          rw [h1]
          by_cases hj' : j < total_num
          · rw [List.getD_eq_getElem _ _ (by simpa using hj'),
              List.getElem_replicate]
          · exact List.getD_eq_default _ _ (by simpa using hj')
        · have h1 : (List.replicate total_num
              (List.replicate total_num (0 : ℚ))).getD i [] = [] :=
            List.getD_eq_default _ _ (by simpa using hi')
          rw [h1]
          rfl
      have hrange : List.range batch_num = List.range' 0 batch_num :=
        List.range_eq_range' batch_num
      have hstart : bslStart batch_size_list 0 = 0 := by
        unfold bslStart
        rw [List.take_zero, List.sum_nil]
      rw [hrange, ← hstart] at hok
      exact assembleOuter_preserves_lower patches batch_size_list batch_num l m i j
        hbn hml hlb hi hj batch_num 0 (by omega) _ M hzero hok

/-- Witness for `C10_assemble_mat_block_upper_triangular`: two batches of one
sample each, all three patches present and well-shaped; the assembled matrix is
`[[5, 7], [0, 9]]` and the theorem yields that its lower-left block entry
`(1, 0)` is `0`. -/
theorem C10_witness :
    assemble_mat true
      (fun l m => if l = 0 ∧ m = 0 then some [[(5 : ℚ)]]
        else if l = 0 ∧ m = 1 then some [[(7 : ℚ)]]
        else if l = 1 ∧ m = 1 then some [[(9 : ℚ)]] else none) 2 2 [1, 1] =
      .ok [[5, 7], [0, 9]] ∧
    matEntry [[(5 : ℚ), 7], [0, 9]] 1 0 = 0 :=
  ⟨by rfl,
    C10_assemble_mat_block_upper_triangular true
      (fun l m => if l = 0 ∧ m = 0 then some [[(5 : ℚ)]]
        else if l = 0 ∧ m = 1 then some [[(7 : ℚ)]]
        else if l = 1 ∧ m = 1 then some [[(9 : ℚ)]] else none) 2 2 [1, 1]
      [[5, 7], [0, 9]] (by decide) (by rfl) 1 0 1 0 (by decide) (by decide)
      ⟨by decide, by decide⟩ ⟨by decide, by decide⟩⟩

/-! ## WeightMat.py: name binding on a worker process

`WeightMat.py` is a top-level MPI script.  For claims about its off-diagonal
stage the decisive fact is Python's name resolution: a name that is read
before any assignment to it has executed raises `NameError` at runtime.
The two lists below are read off the source:
`weightMatWorkerBoundNames` collects, in program order, every name that an
off-rank-0 (worker) process has assigned by the time control reaches the
off-diagonal bin loop (module level through line 217); the names assigned
only on the rank-0 branch (`inv_norm`, `row_val_to_keep`, `row_idx_to_keep`,
`num_dim`, `toc`, …) are not bound on a worker and are therefore excluded. -/

/-- Names assigned on a worker process (`comm_rank != 0`) of `WeightMat.py`
before the off-diagonal bin-size computation at line 220 executes. -/
def weightMatWorkerBoundNames : List String :=
  ["time", "da", "h5py", "np", "scipy", "MPI", "DataSource", "Config", "Graph",
   "comm", "comm_rank", "comm_size", "batch_num_dim0", "batch_num_dim1",
   "input_file_list", "output_folder", "neighbor_number", "keep_diagonal",
   "tic_0", "data_source", "tic", "data_shape", "chunk_size", "data_num",
   "info_holder_dim0", "h5file_holder_dim0", "dataset_holder_dim0",
   "file_name", "data_name_list", "data_ends_list", "data_idx", "data_name",
   "tmp_data_holder", "tmp_dask_data_holder", "dataset_dim0", "axes_range",
   "data_mean_dim0", "data_std_dim0", "inner_prod_matrix", "batch_ends",
   "idx_pre_dim0", "holder_size", "val_to_keep", "idx_to_keep_dim0",
   "std_all", "mean_all", "std_data", "mean_data", "bin_list_dim1",
   "bin_number", "bin_idx", "batches_in_bin", "corresponding_idx_on_dim0"]

/-- Names read by the first statement of the off-diagonal bin body,
line 220 of `WeightMat.py`:
`tmp_num_list = np.array([0,] + [data_source.batch_num_list_dim0[x]
for x in batch_idx_on_dim0], dtype=np.int)`. -/
def weightMatOffDiagFirstStatementReads : List String :=
  ["np", "data_source", "batch_idx_on_dim0"]

/-- CLAIM C4 (code_bug): the first statement of the off-diagonal bin loop
reads the name `batch_idx_on_dim0`, which is bound nowhere on a worker
process (nor anywhere else in `WeightMat.py` — the loop at line 217 binds
`corresponding_idx_on_dim0` instead), so every worker raises `NameError`
there; likewise the arrays `row_idx_to_keep` / `row_val_to_keep` that the
merge and the final patch write use are bound only to `None` on rank 0.
No distance patch is ever persisted, so no final `TopKRow` with the claimed
shape is ever written. -/
theorem C4_off_diagonal_stage_unbound_name :
    "batch_idx_on_dim0" ∈ weightMatOffDiagFirstStatementReads ∧
      "batch_idx_on_dim0" ∉ weightMatWorkerBoundNames ∧
      "row_idx_to_keep" ∉ weightMatWorkerBoundNames ∧
      "row_val_to_keep" ∉ weightMatWorkerBoundNames := by
  refine ⟨by decide, by decide, by decide, by decide⟩

/-! ## WeightMat.py: the off-diagonal merge step (lines 296-311)

Per row, the source concatenates the previously kept `neighbor_number`
correlation values with the bin's newly computed correlation row
(`np.concatenate((row_val_to_keep, inner_prod_matrix), axis=1)`), argsorts the
concatenation ascending and takes the last `neighbor_number` positions in
reverse (`np.argsort(...)[:, :-(neighbor_number+1):-1]`), then gathers the
global indices from `aux_dim1_index` (the kept global indices followed by the
bin's column indices) and the values from the concatenation.

`Graph.get_values_int` / `Graph.get_values_float` live in `Graph.py`, which is
not part of the two files under study; modelled from the spec (§4.5 step 3,
"treated as extra candidate columns carrying their previously recorded global
indices, then re-select the top-K per row"): they gather
`holder[i, j] = source[i, indexes[i, j]]`. -/

/-- The order `np.argsort` (ascending, stable) establishes on positions of the
value row `v`: by value, with the position itself breaking ties. -/
def argRel (v : List ℚ) (i j : ℕ) : Prop :=
  v.getD i 0 < v.getD j 0 ∨ (v.getD i 0 = v.getD j 0 ∧ i ≤ j)

instance argRel.decidableRel (v : List ℚ) : DecidableRel (argRel v) := fun i j => by
  unfold argRel
  infer_instance

instance argRel.isTotal (v : List ℚ) : IsTotal ℕ (argRel v) := by
  constructor
  intro i j
  rcases lt_trichotomy (v.getD i 0) (v.getD j 0) with h | h | h
  · exact Or.inl (Or.inl h)
  · rcases Nat.le_total i j with hij | hij
    · exact Or.inl (Or.inr ⟨h, hij⟩)
    · exact Or.inr (Or.inr ⟨h.symm, hij⟩)
  · exact Or.inr (Or.inl h)

instance argRel.isTrans (v : List ℚ) : IsTrans ℕ (argRel v) := by
  constructor
  intro i j k hij hjk
  rcases hij with hij | ⟨hij, hij'⟩ <;> rcases hjk with hjk | ⟨hjk, hjk'⟩
  · exact Or.inl (hij.trans hjk)
  · exact Or.inl (hjk ▸ hij)
  · exact Or.inl (hij ▸ hjk)
  · exact Or.inr ⟨hij.trans hjk, hij'.trans hjk'⟩

/-- `np.argsort(v)` (ascending, one row): the positions `0, …, len-1` sorted
by value with position as tie break. -/
def argsortAsc (v : List ℚ) : List ℕ :=
  List.insertionSort (argRel v) (List.range v.length)

/-- The slice `[:-(K+1):-1]` of an argsort result: the last `K` positions of
the ascending order, reversed — i.e. the positions of the `K` largest values,
largest first. -/
def npTopKpick (K : ℕ) (v : List ℚ) : List ℕ :=
  (argsortAsc v).reverse.take K

/-- One row of the off-diagonal merge step of `WeightMat.py` (lines 296-311):
concatenate kept values with the bin's correlation row, pick the positions of
the `neighbor_number` largest values, and gather the new kept global indices
(from the kept indices followed by the bin's column indices) and kept values. -/
def mergeRow (neighbor_number : ℕ) (row_idx_to_keep : List ℤ)
    (row_val_to_keep : List ℚ) (col_idx : List ℤ) (col_vals : List ℚ) :
    List ℤ × List ℚ :=
  let vals := row_val_to_keep ++ col_vals
  let aux := row_idx_to_keep ++ col_idx
  let pick := npTopKpick neighbor_number vals
  (pick.map (fun p => aux.getD p 0), pick.map (fun p => vals.getD p 0))

/-- `X` is a selection of the `K` largest values of the pool `P` (as value
multisets): it has `K` elements, and `P` splits into `X` and a remainder every
element of which is `≤` every element of `X`. -/
def IsTopKSelection (K : ℕ) (X P : List ℚ) : Prop :=
  X.length = K ∧ ∃ r, (X ++ r).Perm P ∧ ∀ x ∈ X, ∀ w ∈ r, w ≤ x

lemma map_getD_range {α : Type} (l : List α) (d : α) :
    (List.range l.length).map (fun i => l.getD i d) = l := by
  apply List.ext_getElem
  · rw [List.length_map, List.length_range]
  · intro n h1 h2
    rw [List.getElem_map, List.getElem_range, List.getD_eq_getElem _ _ h2]

/-- CLAIM C3 (corrected), counterexample to the tie-breaking clause: with
`K = 1`, kept value `5` at global index `2`, and one new bin column of equal
value `5` at global index `7`, the merge keeps global index `7` — the
*larger* index — because the reversed slice of a stable ascending argsort
prefers the later position of the concatenated candidate array on ties,
whereas the claim says ties are broken by the smaller global index (which
would keep `2`). -/
theorem C3_counterexample :
    mergeRow 1 [2] [(5 : ℚ)] [7] [(5 : ℚ)] = ([7], [5]) ∧
      (2 : ℤ) ∉ (mergeRow 1 [2] [(5 : ℚ)] [7] [(5 : ℚ)]).1 ∧ (2 : ℤ) < 7 := by
  refine ⟨by decide, by decide, by decide⟩

lemma mergeRow_snd (K : ℕ) (ki : List ℤ) (kv : List ℚ) (ci : List ℤ)
    (cv : List ℚ) :
    (mergeRow K ki kv ci cv).2 =
      (npTopKpick K (kv ++ cv)).map (fun p => (kv ++ cv).getD p 0) := rfl

lemma argsortAsc_reverse_length (v : List ℚ) :
    (argsortAsc v).reverse.length = v.length := by
  rw [List.length_reverse]
  unfold argsortAsc
  rw [List.length_insertionSort, List.length_range]

lemma argsortAsc_reverse_pairwise (v : List ℚ) :
    List.Pairwise (fun a b => argRel v b a) (argsortAsc v).reverse := by
  rw [List.pairwise_reverse]
  exact List.sorted_insertionSort _ _

lemma argsortAsc_reverse_perm (v : List ℚ) :
    (argsortAsc v).reverse.Perm (List.range v.length) :=
  (List.reverse_perm _).trans (List.perm_insertionSort _ _)

lemma npTopKpick_length (K : ℕ) (v : List ℚ) (h : K ≤ v.length) :
    (npTopKpick K v).length = K := by
  unfold npTopKpick
  rw [List.length_take, argsortAsc_reverse_length]
  omega

lemma npTopKpick_pairwise (K : ℕ) (v : List ℚ) :
    List.Pairwise (fun a b => argRel v b a) (npTopKpick K v) :=
  List.Pairwise.sublist (List.take_sublist _ _) (argsortAsc_reverse_pairwise v)

lemma npTopK_vals_sorted (K : ℕ) (v : List ℚ) :
    List.Sorted (· ≥ ·) ((npTopKpick K v).map (fun p => v.getD p 0)) := by
  rw [List.Sorted, List.pairwise_map]
  refine (npTopKpick_pairwise K v).imp ?_
  intro a b hab
  rcases hab with h | h
  · exact le_of_lt h
  · exact le_of_eq h.1

lemma npTopK_selection (K : ℕ) (v : List ℚ) (h : K ≤ v.length) :
    IsTopKSelection K ((npTopKpick K v).map (fun p => v.getD p 0)) v := by
  refine ⟨?_, ((argsortAsc v).reverse.drop K).map (fun p => v.getD p 0), ?_, ?_⟩
  · rw [List.length_map]
    exact npTopKpick_length K v h
  · unfold npTopKpick
    rw [← List.map_append, List.take_append_drop]
    have hperm := (argsortAsc_reverse_perm v).map (fun p => v.getD p 0)
    rwa [map_getD_range v 0] at hperm
  · intro x hx w hw
    obtain ⟨a, ha, rfl⟩ := List.mem_map.mp hx
    obtain ⟨b, hb, rfl⟩ := List.mem_map.mp hw
    have hsplit : List.Pairwise (fun a b => argRel v b a)
        ((argsortAsc v).reverse.take K ++ (argsortAsc v).reverse.drop K) := by
      rw [List.take_append_drop]
      exact argsortAsc_reverse_pairwise v
    obtain ⟨-, -, hcross⟩ := List.pairwise_append.mp hsplit
    have hrel := hcross a ha b hb
    rcases hrel with h' | h'
    · exact le_of_lt h'
    · exact le_of_eq h'.1

lemma npTopK_min_mono (K : ℕ) (kept cols : List ℚ) (hK : kept.length = K) :
    ∀ val ∈ (npTopKpick K (kept ++ cols)).map (fun p => (kept ++ cols).getD p 0),
      ∃ w ∈ kept, w ≤ val := by
  intro val hval
  by_contra hnone
  push_neg at hnone
  have hlen : K ≤ (kept ++ cols).length := by
    rw [List.length_append]
    omega
  obtain ⟨hXlen, r, hperm, hdom⟩ := npTopK_selection K (kept ++ cols) hlen
  have hms : (↑((npTopKpick K (kept ++ cols)).map
        (fun p => (kept ++ cols).getD p 0)) : Multiset ℚ) + ↑r =
      ↑kept + ↑cols := by
    rw [Multiset.coe_add, Multiset.coe_add]
    exact Multiset.coe_eq_coe.mpr hperm
  have hsub : (↑kept : Multiset ℚ) ≤
      ↑((npTopKpick K (kept ++ cols)).map (fun p => (kept ++ cols).getD p 0)) := by
    rw [Multiset.le_iff_count]
    intro w
    by_cases hwk : w ∈ kept
    · have hvw : val < w := hnone w hwk
      have hwr : w ∉ r := by
        intro hmem
        exact absurd (hdom val hval w hmem) (not_le.mpr hvw)
      have hcr : Multiset.count w (↑r : Multiset ℚ) = 0 :=
        Multiset.count_eq_zero.mpr (by rwa [Multiset.mem_coe])
      have hcount := congrArg (Multiset.count w) hms
      rw [Multiset.count_add, Multiset.count_add, hcr, Nat.add_zero] at hcount
      omega
    · have : Multiset.count w (↑kept : Multiset ℚ) = 0 :=
        Multiset.count_eq_zero.mpr (by rwa [Multiset.mem_coe])
      omega
  have hcard : Multiset.card
      (↑((npTopKpick K (kept ++ cols)).map
        (fun p => (kept ++ cols).getD p 0)) : Multiset ℚ) ≤
      Multiset.card (↑kept : Multiset ℚ) := by
    rw [Multiset.coe_card, Multiset.coe_card, hXlen, hK]
  have hequal := Multiset.eq_of_le_of_card_le hsub hcard
  have hvmem : val ∈ kept := by
    rw [← Multiset.mem_coe, hequal, Multiset.mem_coe]
    exact hval
  exact absurd (le_refl val) (not_le.mpr (hnone val hvmem))

/-- CLAIM C3 (corrected), amended: each off-diagonal merge step re-selects,
per row, the `K = neighbor_number` largest values over the concatenation of
the previously kept `K` values with the bin's correlation columns — with ties
broken towards the *later* position of the concatenated candidate array (new
bin columns beat previously kept values, and larger positions beat smaller
ones), not the smaller global index.  Consequently: the kept row stays of
length `K`, is sorted descending, its minimum never decreases across a merge
(every new value is `≥` some previously kept value), and whenever the kept
values were a top-`K` selection of the pool of all columns seen so far, the
merged values are a top-`K` selection of that pool extended by the bin's
columns. -/
theorem C3_merge_step_amended (neighbor_number : ℕ) (row_idx_to_keep : List ℤ)
    (row_val_to_keep : List ℚ) (col_idx : List ℤ) (col_vals : List ℚ)
    (pool : List ℚ)
    (hsel : IsTopKSelection neighbor_number row_val_to_keep pool) :
    (mergeRow neighbor_number row_idx_to_keep row_val_to_keep col_idx
        col_vals).2.length = neighbor_number ∧
    List.Sorted (· ≥ ·)
      (mergeRow neighbor_number row_idx_to_keep row_val_to_keep col_idx
        col_vals).2 ∧
    (∀ v ∈ (mergeRow neighbor_number row_idx_to_keep row_val_to_keep col_idx
        col_vals).2, ∃ w ∈ row_val_to_keep, w ≤ v) ∧
    IsTopKSelection neighbor_number
      (mergeRow neighbor_number row_idx_to_keep row_val_to_keep col_idx
        col_vals).2 (pool ++ col_vals) := by
  obtain ⟨hK, r0, hperm0, hdom0⟩ := hsel
  have hlen : neighbor_number ≤ (row_val_to_keep ++ col_vals).length := by
    rw [List.length_append]
    omega
  rw [mergeRow_snd]
  obtain ⟨hXlen, r1, hperm1, hdom1⟩ :=
    npTopK_selection neighbor_number (row_val_to_keep ++ col_vals) hlen
  have hmono := npTopK_min_mono neighbor_number row_val_to_keep col_vals hK
  refine ⟨hXlen, npTopK_vals_sorted _ _, hmono, hXlen, r1 ++ r0, ?_, ?_⟩
  · -- (X ++ (r1 ++ r0)) is a permutation of pool ++ col_vals
    have hassoc : (npTopKpick neighbor_number (row_val_to_keep ++ col_vals)).map
          (fun p => (row_val_to_keep ++ col_vals).getD p 0) ++ (r1 ++ r0) =
        ((npTopKpick neighbor_number (row_val_to_keep ++ col_vals)).map
          (fun p => (row_val_to_keep ++ col_vals).getD p 0) ++ r1) ++ r0 :=
      (List.append_assoc _ _ _).symm
    rw [hassoc]
    refine (hperm1.append_right r0).trans ?_
    refine List.Perm.trans ?_ (hperm0.append_right col_vals)
    rw [List.append_assoc, List.append_assoc]
    exact List.Perm.append_left row_val_to_keep List.perm_append_comm
  · intro x hx w hw
    rcases List.mem_append.mp hw with hw | hw
    · exact hdom1 x hx w hw
    · obtain ⟨kw, hkw, hkwx⟩ := hmono x hx
      exact (hdom0 kw hkw w hw).trans hkwx

/-- Witness for `C3_merge_step_amended`: `K = 1`, kept value `5` (index `2`),
bin columns valued `3` and `9` (indices `7`, `8`); the kept row is a trivial
top-1 selection of itself, and the theorem applies. -/
theorem C3_witness :
    IsTopKSelection 1 [(5 : ℚ)] [(5 : ℚ)] ∧
    ((mergeRow 1 [2] [(5 : ℚ)] [7, 8] [3, 9]).2.length = 1 ∧
     List.Sorted (· ≥ ·) (mergeRow 1 [2] [(5 : ℚ)] [7, 8] [3, 9]).2 ∧
     (∀ v ∈ (mergeRow 1 [2] [(5 : ℚ)] [7, 8] [3, 9]).2, ∃ w ∈ [(5 : ℚ)], w ≤ v) ∧
     IsTopKSelection 1 (mergeRow 1 [2] [(5 : ℚ)] [7, 8] [3, 9]).2
       ([(5 : ℚ)] ++ [3, 9])) :=
  ⟨⟨rfl, [], by simp, by simp⟩,
   C3_merge_step_amended 1 [2] [(5 : ℚ)] [7, 8] [3, 9] [(5 : ℚ)]
     ⟨rfl, [], by simp, by simp⟩⟩

/-! ## util.py: get_global_index_map (lines 213-266) -/

/-- numpy slice assignment `row[start : start + vals.length] = vals` on a 1-D
natural-number array (always length preserving when the slice fits, as at the
call sites reached by the claims below). -/
def writeSliceN (row : List ℕ) (start : ℕ) (vals : List ℕ) : List ℕ :=
  row.take start ++ vals ++ row.drop (start + vals.length)

/-- The `3 × data_num_total` map built by `get_global_index_map`:
row 0 = file index, row 1 = dataset index, row 2 = local index. -/
structure GIMap where
  fileRow : List ℕ
  datasetRow : List ℕ
  localRow : List ℕ
deriving DecidableEq

/-- Embedding of `util.get_global_index_map`: three zero rows of length
`data_num_total`; for each file, `holder[0, fileStart:fileEnd] = file_idx`,
and for each of its datasets,
`holder[1, dsStart:dsEnd] = dataset_idx` and
`holder[2, dsStart:dsEnd] = arange(count)`, with the running starting points
updated exactly as in the source. -/
def get_global_index_map (data_num_total file_num : ℕ)
    (data_num_per_file : List ℕ) (dataset_num_per_file : List ℕ)
    (data_num_per_dataset : List (List ℕ)) : GIMap :=
  let init : GIMap := ⟨List.replicate data_num_total 0,
    List.replicate data_num_total 0, List.replicate data_num_total 0⟩
  ((List.range file_num).foldl (fun acc file_idx =>
    let holder := acc.1
    let fileStart := acc.2
    let fileEnd := fileStart + data_num_per_file.getD file_idx 0
    let row0 := writeSliceN holder.fileRow fileStart
      (List.replicate (fileEnd - fileStart) file_idx)
    let inner := (List.range (dataset_num_per_file.getD file_idx 0)).foldl
      (fun acc2 dataset_idx =>
        let dsStart := acc2.2.2
        let c := (data_num_per_dataset.getD file_idx []).getD dataset_idx 0
        (writeSliceN acc2.1 dsStart (List.replicate c dataset_idx),
         writeSliceN acc2.2.1 dsStart (List.range c),
         dsStart + c))
      (holder.datasetRow, holder.localRow, fileStart)
    (⟨row0, inner.1, inner.2.1⟩, fileEnd)) (init, 0)).1

/-- The `(file index, dataset index)` pair a global index `g` is mapped to. -/
def gimPair (M : GIMap) (g : ℕ) : ℕ × ℕ :=
  (M.fileRow.getD g 0, M.datasetRow.getD g 0)

/-- Claim C6 as stated, for one input: the map is monotonic in the global
index — the file row is non-decreasing; the dataset row is non-decreasing
within each file; the global indices mapped to any one `(file, dataset)` pair
form a single contiguous range; and the local indices within each dataset are
exactly `0, 1, …, count-1`. -/
def gimMonotonicClaimAt (data_num_total file_num : ℕ)
    (data_num_per_file : List ℕ) (dataset_num_per_file : List ℕ)
    (data_num_per_dataset : List (List ℕ)) : Prop :=
  List.Sorted (· ≤ ·)
    (get_global_index_map data_num_total file_num data_num_per_file
      dataset_num_per_file data_num_per_dataset).fileRow ∧
  (∀ i ∈ Finset.range data_num_total, ∀ j ∈ Finset.range data_num_total, i ≤ j →
    (get_global_index_map data_num_total file_num data_num_per_file
      dataset_num_per_file data_num_per_dataset).fileRow.getD i 0 =
    (get_global_index_map data_num_total file_num data_num_per_file
      dataset_num_per_file data_num_per_dataset).fileRow.getD j 0 →
    (get_global_index_map data_num_total file_num data_num_per_file
      dataset_num_per_file data_num_per_dataset).datasetRow.getD i 0 ≤
    (get_global_index_map data_num_total file_num data_num_per_file
      dataset_num_per_file data_num_per_dataset).datasetRow.getD j 0) ∧
  (∀ i ∈ Finset.range data_num_total, ∀ j ∈ Finset.range data_num_total,
    ∀ k ∈ Finset.range data_num_total, i ≤ j → j ≤ k →
    gimPair (get_global_index_map data_num_total file_num data_num_per_file
      dataset_num_per_file data_num_per_dataset) i =
    gimPair (get_global_index_map data_num_total file_num data_num_per_file
      dataset_num_per_file data_num_per_dataset) k →
    gimPair (get_global_index_map data_num_total file_num data_num_per_file
      dataset_num_per_file data_num_per_dataset) j =
    gimPair (get_global_index_map data_num_total file_num data_num_per_file
      dataset_num_per_file data_num_per_dataset) i) ∧
  (∀ f ∈ Finset.range file_num,
    ∀ d ∈ Finset.range (data_num_per_dataset.getD f []).length,
    ((List.range data_num_total).filter (fun g =>
        gimPair (get_global_index_map data_num_total file_num data_num_per_file
          dataset_num_per_file data_num_per_dataset) g = (f, d))).map
      (fun g =>
        (get_global_index_map data_num_total file_num data_num_per_file
          dataset_num_per_file data_num_per_dataset).localRow.getD g 0) =
    List.range ((data_num_per_dataset.getD f []).getD d 0))

instance (data_num_total file_num : ℕ) (data_num_per_file : List ℕ)
    (dataset_num_per_file : List ℕ) (data_num_per_dataset : List (List ℕ)) :
    Decidable (gimMonotonicClaimAt data_num_total file_num data_num_per_file
      dataset_num_per_file data_num_per_dataset) := by
  unfold gimMonotonicClaimAt
  infer_instance

/-- CLAIM C6 (corrected), counterexample: one file declared to hold `2`
samples (`data_num_total = 2` equals the sum of the per-file counts, as the
claim requires) but with a single dataset of only `1` sample.  The dataset
loop writes local indices `[0]` and leaves global index `1` at the
zero-initialized defaults, so both global indices map to `(file 0, dataset 0)`
with local indices `[0, 0]` — not `0, …, count-1`.  The claim's precondition
(`data_num_total` equals the sum of the per-file counts) does not suffice. -/
theorem C6_counterexample :
    ([2] : List ℕ).sum = 2 ∧
      ¬ gimMonotonicClaimAt 2 1 [2] [1] [[1]] := by
  refine ⟨by decide, by decide⟩

/-! Canonical form of the map built by `get_global_index_map` on consistent
inputs: the concatenation, file by file and dataset by dataset, of constant
blocks (file row, dataset row) and of `arange` blocks (local row). -/

/-- Row-0 contribution of file `f`: its file index repeated `count f` times. -/
def gimFileBlock (data_num_per_file : List ℕ) (f : ℕ) : List ℕ :=
  List.replicate (data_num_per_file.getD f 0) f

/-- Row-1 contribution of file `f`: each dataset index repeated its count. -/
def gimDsBlock1 (dataset_num_per_file : List ℕ) (data_num_per_dataset : List (List ℕ))
    (f : ℕ) : List ℕ :=
  (List.range (dataset_num_per_file.getD f 0)).flatMap
    (fun d => List.replicate ((data_num_per_dataset.getD f []).getD d 0) d)

/-- Row-2 contribution of file `f`: `arange(count)` for each of its datasets. -/
def gimDsBlock2 (dataset_num_per_file : List ℕ) (data_num_per_dataset : List (List ℕ))
    (f : ℕ) : List ℕ :=
  (List.range (dataset_num_per_file.getD f 0)).flatMap
    (fun d => List.range ((data_num_per_dataset.getD f []).getD d 0))

lemma writeSliceN_nil (row : List ℕ) (s : ℕ) : writeSliceN row s [] = row := by
  unfold writeSliceN
  simp

lemma writeSliceN_length (row : List ℕ) (s : ℕ) (vals : List ℕ)
    (h : s + vals.length ≤ row.length) :
    (writeSliceN row s vals).length = row.length := by
  unfold writeSliceN
  rw [List.length_append, List.length_append, List.length_take, List.length_drop]
  omega

lemma writeSliceN_comp (row : List ℕ) (s : ℕ) (v1 v2 : List ℕ)
    (h : s + v1.length ≤ row.length) :
    writeSliceN (writeSliceN row s v1) (s + v1.length) v2 =
      writeSliceN row s (v1 ++ v2) := by
  have hts : (row.take s).length = s := by
    rw [List.length_take]
    omega
  have hfront : (row.take s ++ v1).length = s + v1.length := by
    rw [List.length_append, hts]
  unfold writeSliceN
  rw [List.take_left' hfront, List.drop_append_eq_append_drop, hfront,
    List.drop_eq_nil_of_le (by omega), List.nil_append, List.drop_drop]
  have hidx : s + (v1 ++ v2).length = s + v1.length + v2.length := by
    rw [List.length_append]
    omega
  rw [hidx]
  simp [List.append_assoc]

lemma gim_inner_fold (data_num_per_dataset : List (List ℕ)) (f : ℕ) :
    ∀ (k d0 : ℕ) (r1 r2 : List ℕ) (t : ℕ),
      t + ((List.range' d0 k).flatMap
        (fun d => List.replicate ((data_num_per_dataset.getD f []).getD d 0) d)).length ≤
          r1.length →
      t + ((List.range' d0 k).flatMap
        (fun d => List.replicate ((data_num_per_dataset.getD f []).getD d 0) d)).length ≤
          r2.length →
      (List.range' d0 k).foldl
        (fun acc2 dataset_idx =>
          let dsStart := acc2.2.2
          let c := (data_num_per_dataset.getD f []).getD dataset_idx 0
          (writeSliceN acc2.1 dsStart (List.replicate c dataset_idx),
           writeSliceN acc2.2.1 dsStart (List.range c),
           dsStart + c)) (r1, r2, t) =
      (writeSliceN r1 t ((List.range' d0 k).flatMap
        (fun d => List.replicate ((data_num_per_dataset.getD f []).getD d 0) d)),
       writeSliceN r2 t ((List.range' d0 k).flatMap
        (fun d => List.range ((data_num_per_dataset.getD f []).getD d 0))),
       t + ((List.range' d0 k).flatMap
        (fun d => List.replicate ((data_num_per_dataset.getD f []).getD d 0) d)).length) := by
  intro k
  induction k with
  | zero =>
    intro d0 r1 r2 t _ _
    rw [List.range'_zero]
    simp only [List.flatMap_nil, List.foldl_nil, writeSliceN_nil, List.length_nil,
      Nat.add_zero]
  | succ k ih =>
    intro d0 r1 r2 t h1 h2
    have hsplit1 : (List.range' d0 (k + 1)).flatMap
        (fun d => List.replicate ((data_num_per_dataset.getD f []).getD d 0) d) =
        List.replicate ((data_num_per_dataset.getD f []).getD d0 0) d0 ++
        (List.range' (d0 + 1) k).flatMap
          (fun d => List.replicate ((data_num_per_dataset.getD f []).getD d 0) d) := by
      rw [List.range'_succ, List.flatMap_cons]
    have hsplit2 : (List.range' d0 (k + 1)).flatMap
        (fun d => List.range ((data_num_per_dataset.getD f []).getD d 0)) =
        List.range ((data_num_per_dataset.getD f []).getD d0 0) ++
        (List.range' (d0 + 1) k).flatMap
          (fun d => List.range ((data_num_per_dataset.getD f []).getD d 0)) := by
      rw [List.range'_succ, List.flatMap_cons]
    rw [hsplit1] at h1
    rw [hsplit1] at h2
    rw [List.length_append, List.length_replicate] at h1 h2
    conv_lhs => rw [List.range'_succ]
    rw [List.foldl_cons]
    have hc1 : t + (List.replicate ((data_num_per_dataset.getD f []).getD d0 0) d0).length
        ≤ r1.length := by
      rw [List.length_replicate]
      omega
    have hc2 : t + (List.range ((data_num_per_dataset.getD f []).getD d0 0)).length
        ≤ r2.length := by
      rw [List.length_range]
      omega
    have hlen1 := writeSliceN_length r1 t
      (List.replicate ((data_num_per_dataset.getD f []).getD d0 0) d0) hc1
    have hlen2 := writeSliceN_length r2 t
      (List.range ((data_num_per_dataset.getD f []).getD d0 0)) hc2
    have hih := ih (d0 + 1)
      (writeSliceN r1 t (List.replicate ((data_num_per_dataset.getD f []).getD d0 0) d0))
      (writeSliceN r2 t (List.range ((data_num_per_dataset.getD f []).getD d0 0)))
      (t + (data_num_per_dataset.getD f []).getD d0 0)
      (by rw [hlen1]; omega) (by rw [hlen2]; omega)
    dsimp only
    rw [hih]
    have he1 : writeSliceN
        (writeSliceN r1 t (List.replicate ((data_num_per_dataset.getD f []).getD d0 0) d0))
        (t + (data_num_per_dataset.getD f []).getD d0 0)
        ((List.range' (d0 + 1) k).flatMap
          (fun d => List.replicate ((data_num_per_dataset.getD f []).getD d 0) d)) =
        writeSliceN r1 t
          ((List.range' d0 (k + 1)).flatMap
            (fun d => List.replicate ((data_num_per_dataset.getD f []).getD d 0) d)) := by
      rw [hsplit1]
      have := writeSliceN_comp r1 t
        (List.replicate ((data_num_per_dataset.getD f []).getD d0 0) d0)
        ((List.range' (d0 + 1) k).flatMap
          (fun d => List.replicate ((data_num_per_dataset.getD f []).getD d 0) d)) hc1
      rw [List.length_replicate] at this
      exact this
    have he2 : writeSliceN
        (writeSliceN r2 t (List.range ((data_num_per_dataset.getD f []).getD d0 0)))
        (t + (data_num_per_dataset.getD f []).getD d0 0)
        ((List.range' (d0 + 1) k).flatMap
          (fun d => List.range ((data_num_per_dataset.getD f []).getD d 0))) =
        writeSliceN r2 t
          ((List.range' d0 (k + 1)).flatMap
            (fun d => List.range ((data_num_per_dataset.getD f []).getD d 0))) := by
      rw [hsplit2]
      have := writeSliceN_comp r2 t
        (List.range ((data_num_per_dataset.getD f []).getD d0 0))
        ((List.range' (d0 + 1) k).flatMap
          (fun d => List.range ((data_num_per_dataset.getD f []).getD d 0))) hc2
      rw [List.length_range] at this
      exact this
    have hlen3 : t + ((List.range' d0 (k + 1)).flatMap
        (fun d => List.replicate ((data_num_per_dataset.getD f []).getD d 0) d)).length =
        t + (data_num_per_dataset.getD f []).getD d0 0 +
          ((List.range' (d0 + 1) k).flatMap
            (fun d => List.replicate ((data_num_per_dataset.getD f []).getD d 0) d)).length := by
      rw [hsplit1, List.length_append, List.length_replicate]
      omega
    rw [he1, he2, hlen3]

lemma gim_outer_fold (data_num_per_file dataset_num_per_file : List ℕ)
    (data_num_per_dataset : List (List ℕ)) :
    ∀ (k a : ℕ) (H : GIMap) (s : ℕ),
      (∀ f, a ≤ f → f < a + k →
        (gimDsBlock1 dataset_num_per_file data_num_per_dataset f).length =
          data_num_per_file.getD f 0 ∧
        (gimDsBlock2 dataset_num_per_file data_num_per_dataset f).length =
          data_num_per_file.getD f 0) →
      s + ((List.range' a k).flatMap (gimFileBlock data_num_per_file)).length ≤
        H.fileRow.length →
      s + ((List.range' a k).flatMap (gimFileBlock data_num_per_file)).length ≤
        H.datasetRow.length →
      s + ((List.range' a k).flatMap (gimFileBlock data_num_per_file)).length ≤
        H.localRow.length →
      (List.range' a k).foldl (fun acc file_idx =>
        let holder := acc.1
        let fileStart := acc.2
        let fileEnd := fileStart + data_num_per_file.getD file_idx 0
        let row0 := writeSliceN holder.fileRow fileStart
          (List.replicate (fileEnd - fileStart) file_idx)
        let inner := (List.range (dataset_num_per_file.getD file_idx 0)).foldl
          (fun acc2 dataset_idx =>
            let dsStart := acc2.2.2
            let c := (data_num_per_dataset.getD file_idx []).getD dataset_idx 0
            (writeSliceN acc2.1 dsStart (List.replicate c dataset_idx),
             writeSliceN acc2.2.1 dsStart (List.range c),
             dsStart + c))
          (holder.datasetRow, holder.localRow, fileStart)
        (⟨row0, inner.1, inner.2.1⟩, fileEnd)) (H, s) =
      (⟨writeSliceN H.fileRow s
          ((List.range' a k).flatMap (gimFileBlock data_num_per_file)),
        writeSliceN H.datasetRow s
          ((List.range' a k).flatMap (gimDsBlock1 dataset_num_per_file data_num_per_dataset)),
        writeSliceN H.localRow s
          ((List.range' a k).flatMap (gimDsBlock2 dataset_num_per_file data_num_per_dataset))⟩,
       s + ((List.range' a k).flatMap (gimFileBlock data_num_per_file)).length) := by
  intro k
  induction k with
  | zero =>
    intro a H s _ _ _ _
    rw [List.range'_zero]
    simp only [List.flatMap_nil, List.foldl_nil, writeSliceN_nil, List.length_nil,
      Nat.add_zero]
  | succ k ih =>
    intro a H s hblock hb0 hb1 hb2
    have hsplit0 : (List.range' a (k + 1)).flatMap (gimFileBlock data_num_per_file) =
        gimFileBlock data_num_per_file a ++
          (List.range' (a + 1) k).flatMap (gimFileBlock data_num_per_file) := by
      rw [List.range'_succ, List.flatMap_cons]
    have hsplit1 : (List.range' a (k + 1)).flatMap
        (gimDsBlock1 dataset_num_per_file data_num_per_dataset) =
        gimDsBlock1 dataset_num_per_file data_num_per_dataset a ++
          (List.range' (a + 1) k).flatMap
            (gimDsBlock1 dataset_num_per_file data_num_per_dataset) := by
      rw [List.range'_succ, List.flatMap_cons]
    have hsplit2 : (List.range' a (k + 1)).flatMap
        (gimDsBlock2 dataset_num_per_file data_num_per_dataset) =
        gimDsBlock2 dataset_num_per_file data_num_per_dataset a ++
          (List.range' (a + 1) k).flatMap
            (gimDsBlock2 dataset_num_per_file data_num_per_dataset) := by
      rw [List.range'_succ, List.flatMap_cons]
    have hba := hblock a (Nat.le_refl a) (by omega)
    have hfb : (gimFileBlock data_num_per_file a).length =
        data_num_per_file.getD a 0 := List.length_replicate _ _
    rw [hsplit0, List.length_append, hfb] at hb0 hb1 hb2
    conv_lhs => rw [List.range'_succ]
    rw [List.foldl_cons]
    dsimp only
    -- the written width of the file-row block
    rw [Nat.add_sub_cancel_left]
    -- evaluate the inner (dataset) fold via gim_inner_fold
    have hseg1 : (List.range' 0 (dataset_num_per_file.getD a 0)).flatMap
        (fun d => List.replicate ((data_num_per_dataset.getD a []).getD d 0) d) =
        gimDsBlock1 dataset_num_per_file data_num_per_dataset a := by
      unfold gimDsBlock1
      rw [← List.range_eq_range']
    have hseg2 : (List.range' 0 (dataset_num_per_file.getD a 0)).flatMap
        (fun d => List.range ((data_num_per_dataset.getD a []).getD d 0)) =
        gimDsBlock2 dataset_num_per_file data_num_per_dataset a := by
      unfold gimDsBlock2
      rw [← List.range_eq_range']
    have hbound1 : s + ((List.range' 0 (dataset_num_per_file.getD a 0)).flatMap
        (fun d => List.replicate ((data_num_per_dataset.getD a []).getD d 0) d)).length ≤
        H.datasetRow.length := by
      rw [hseg1, hba.1]
      omega
    have hbound2 : s + ((List.range' 0 (dataset_num_per_file.getD a 0)).flatMap
        (fun d => List.replicate ((data_num_per_dataset.getD a []).getD d 0) d)).length ≤
        H.localRow.length := by
      rw [hseg1, hba.1]
      omega
    have hinner := gim_inner_fold data_num_per_dataset a
      (dataset_num_per_file.getD a 0) 0 H.datasetRow H.localRow s hbound1 hbound2
    rw [hseg1, hseg2] at hinner
    rw [← List.range_eq_range'] at hinner
    rw [hinner]
    dsimp only
    have hlen0 : (writeSliceN H.fileRow s
        (List.replicate (data_num_per_file.getD a 0) a)).length = H.fileRow.length :=
      writeSliceN_length _ _ _ (by rw [List.length_replicate]; omega)
    have hlen1 : (writeSliceN H.datasetRow s
        (gimDsBlock1 dataset_num_per_file data_num_per_dataset a)).length =
        H.datasetRow.length :=
      writeSliceN_length _ _ _ (by rw [hba.1]; omega)
    have hlen2 : (writeSliceN H.localRow s
        (gimDsBlock2 dataset_num_per_file data_num_per_dataset a)).length =
        H.localRow.length :=
      writeSliceN_length _ _ _ (by rw [hba.2]; omega)
    have hih := ih (a + 1)
      ⟨writeSliceN H.fileRow s (List.replicate (data_num_per_file.getD a 0) a),
        writeSliceN H.datasetRow s
          (gimDsBlock1 dataset_num_per_file data_num_per_dataset a),
        writeSliceN H.localRow s
          (gimDsBlock2 dataset_num_per_file data_num_per_dataset a)⟩
      (s + data_num_per_file.getD a 0)
      (fun f hf1 hf2 => hblock f (by omega) (by omega))
      (by dsimp only; rw [hlen0]; omega)
      (by dsimp only; rw [hlen1]; omega)
      (by dsimp only; rw [hlen2]; omega)
    rw [hih]
    dsimp only
    have hc0 := writeSliceN_comp H.fileRow s
      (List.replicate (data_num_per_file.getD a 0) a)
      ((List.range' (a + 1) k).flatMap (gimFileBlock data_num_per_file))
      (by rw [List.length_replicate]; omega)
    rw [List.length_replicate] at hc0
    have hc1 := writeSliceN_comp H.datasetRow s
      (gimDsBlock1 dataset_num_per_file data_num_per_dataset a)
      ((List.range' (a + 1) k).flatMap
        (gimDsBlock1 dataset_num_per_file data_num_per_dataset))
      (by rw [hba.1]; omega)
    rw [hba.1] at hc1
    have hc2 := writeSliceN_comp H.localRow s
      (gimDsBlock2 dataset_num_per_file data_num_per_dataset a)
      ((List.range' (a + 1) k).flatMap
        (gimDsBlock2 dataset_num_per_file data_num_per_dataset))
      (by rw [hba.2]; omega)
    rw [hba.2] at hc2
    rw [hc0, hc1, hc2]
    have hlenfin : s + ((List.range' a (k + 1)).flatMap
        (gimFileBlock data_num_per_file)).length =
        s + data_num_per_file.getD a 0 +
          ((List.range' (a + 1) k).flatMap (gimFileBlock data_num_per_file)).length := by
      rw [hsplit0, List.length_append, hfb]
      omega
    rw [hlenfin, hsplit0, hsplit1, hsplit2]
    rfl

/-- The canonical triple list of a consistent input: one `(file, dataset,
local)` triple per sample, in file-then-dataset-then-local order. -/
def gimTripleList (file_num : ℕ) (dataset_num_per_file : List ℕ)
    (data_num_per_dataset : List (List ℕ)) : List (ℕ × ℕ × ℕ) :=
  (List.range file_num).flatMap (fun f =>
    (List.range (dataset_num_per_file.getD f 0)).flatMap (fun d =>
      (List.range ((data_num_per_dataset.getD f []).getD d 0)).map
        (fun lo => (f, d, lo))))

lemma gim_eq_canonical (data_num_total file_num : ℕ)
    (data_num_per_file dataset_num_per_file : List ℕ)
    (data_num_per_dataset : List (List ℕ))
    (hblock : ∀ f, f < file_num →
      (gimDsBlock1 dataset_num_per_file data_num_per_dataset f).length =
        data_num_per_file.getD f 0 ∧
      (gimDsBlock2 dataset_num_per_file data_num_per_dataset f).length =
        data_num_per_file.getD f 0)
    (htot : data_num_total =
      ((List.range file_num).flatMap (gimFileBlock data_num_per_file)).length) :
    get_global_index_map data_num_total file_num data_num_per_file
      dataset_num_per_file data_num_per_dataset =
    ⟨(List.range file_num).flatMap (gimFileBlock data_num_per_file),
     (List.range file_num).flatMap
       (gimDsBlock1 dataset_num_per_file data_num_per_dataset),
     (List.range file_num).flatMap
       (gimDsBlock2 dataset_num_per_file data_num_per_dataset)⟩ := by
  have hfold := gim_outer_fold data_num_per_file dataset_num_per_file
    data_num_per_dataset file_num 0
    ⟨List.replicate data_num_total 0, List.replicate data_num_total 0,
      List.replicate data_num_total 0⟩ 0
    (fun f hf1 hf2 => hblock f (by omega))
    (by
      dsimp only
      rw [List.length_replicate, ← List.range_eq_range']
      omega)
    (by
      dsimp only
      rw [List.length_replicate, ← List.range_eq_range']
      omega)
    (by
      dsimp only
      rw [List.length_replicate, ← List.range_eq_range']
      omega)
  rw [← List.range_eq_range'] at hfold
  unfold get_global_index_map
  dsimp only
  rw [hfold]
  dsimp only
  have hlen1 : ((List.range file_num).flatMap
      (gimDsBlock1 dataset_num_per_file data_num_per_dataset)).length =
      ((List.range file_num).flatMap (gimFileBlock data_num_per_file)).length := by
    rw [List.length_flatMap, List.length_flatMap]
    congr 1
    refine List.map_congr_left ?_
    intro f hf
    rw [List.mem_range] at hf
    have h1 := (hblock f hf).1
    have h2 : (gimFileBlock data_num_per_file f).length = data_num_per_file.getD f 0 :=
      List.length_replicate _ _
    simp only [Function.comp_apply]
    rw [h1, h2]
  have hlen2 : ((List.range file_num).flatMap
      (gimDsBlock2 dataset_num_per_file data_num_per_dataset)).length =
      ((List.range file_num).flatMap (gimFileBlock data_num_per_file)).length := by
    rw [List.length_flatMap, List.length_flatMap]
    congr 1
    refine List.map_congr_left ?_
    intro f hf
    rw [List.mem_range] at hf
    have h1 := (hblock f hf).2
    have h2 : (gimFileBlock data_num_per_file f).length = data_num_per_file.getD f 0 :=
      List.length_replicate _ _
    simp only [Function.comp_apply]
    rw [h1, h2]
  have hwz : ∀ (v : List ℕ), v.length = data_num_total →
      writeSliceN (List.replicate data_num_total (0 : ℕ)) 0 v = v := by
    intro v hv
    unfold writeSliceN
    rw [List.take_zero, List.nil_append, Nat.zero_add, List.drop_replicate, hv,
      Nat.sub_self, List.replicate_zero, List.append_nil]
  rw [hwz _ htot.symm, hwz _ (hlen1.trans htot.symm), hwz _ (hlen2.trans htot.symm)]

lemma flatMap_congr_mem {α β : Type} (l : List α) (g g' : α → List β)
    (h : ∀ a ∈ l, g a = g' a) : l.flatMap g = l.flatMap g' := by
  induction l with
  | nil => rfl
  | cons a t ih =>
    rw [List.flatMap_cons, List.flatMap_cons, h a (List.mem_cons_self a t),
      ih (fun a' ha' => h a' (List.mem_cons_of_mem a ha'))]

lemma flatMap_replicate_const {α : Type} (m : ℕ → ℕ) (x : α) :
    ∀ l : List ℕ, l.flatMap (fun d => List.replicate (m d) x) =
      List.replicate ((l.map m).sum) x := by
  intro l
  induction l with
  | nil => rfl
  | cons a t ih =>
    rw [List.flatMap_cons, ih, List.map_cons, List.sum_cons, List.replicate_add]

lemma pairwise_of_forall_mem {α : Type} (R : α → α → Prop) :
    ∀ l : List α, (∀ a ∈ l, ∀ b ∈ l, R a b) → List.Pairwise R l := by
  intro l
  induction l with
  | nil => exact fun _ => List.Pairwise.nil
  | cons a t ih =>
    intro h
    exact List.Pairwise.cons
      (fun b hb => h a (List.mem_cons_self a t) b (List.mem_cons_of_mem a hb))
      (ih (fun x hx y hy =>
        h x (List.mem_cons_of_mem a hx) y (List.mem_cons_of_mem a hy)))

lemma pairwise_flatMap {α β : Type} (R : β → β → Prop) (g : α → List β) :
    ∀ l : List α, (∀ a ∈ l, List.Pairwise R (g a)) →
      List.Pairwise (fun a a' => ∀ b ∈ g a, ∀ b' ∈ g a', R b b') l →
      List.Pairwise R (l.flatMap g) := by
  intro l
  induction l with
  | nil => exact fun _ _ => List.Pairwise.nil
  | cons a t ih =>
    intro hall hcross
    rw [List.flatMap_cons]
    rw [List.pairwise_cons] at hcross
    refine List.pairwise_append.mpr
      ⟨hall a (List.mem_cons_self a t), ih
        (fun a' ha' => hall a' (List.mem_cons_of_mem a ha')) hcross.2, ?_⟩
    intro b hb b' hb'
    obtain ⟨a', ha', hba'⟩ := List.mem_flatMap.mp hb'
    exact hcross.1 a' ha' b hb b' hba'

lemma flatMap_single {α β : Type} (g : α → List β) (a0 : α) :
    ∀ l : List α, a0 ∈ l → l.Nodup → (∀ a ∈ l, a ≠ a0 → g a = []) →
      l.flatMap g = g a0 := by
  intro l
  induction l with
  | nil => intro h; exact absurd h (List.not_mem_nil a0)
  | cons a t ih =>
    intro hmem hnd hz
    rw [List.flatMap_cons]
    rcases List.mem_cons.mp hmem with rfl | hmem'
    · have htz : t.flatMap g = [] := by
        rw [List.flatMap_eq_nil_iff]
        intro x hx
        exact hz x (List.mem_cons_of_mem a0 hx)
          (fun hcontra => (List.nodup_cons.mp hnd).1 (hcontra ▸ hx))
      rw [htz, List.append_nil]
    · have hne : a ≠ a0 := by
        intro hcontra
        exact (List.nodup_cons.mp hnd).1 (hcontra ▸ hmem')
      rw [hz a (List.mem_cons_self a t) hne, List.nil_append]
      exact ih hmem' (List.nodup_cons.mp hnd).2
        (fun x hx => hz x (List.mem_cons_of_mem a hx))

/-- The lexicographic-by-`(file, dataset)` preorder the canonical triple list
is sorted by. -/
def gimLe (p q : ℕ × ℕ × ℕ) : Prop :=
  p.1 < q.1 ∨ (p.1 = q.1 ∧ p.2.1 ≤ q.2.1)

lemma gimTripleList_mem_fst (file_num : ℕ) (dataset_num_per_file : List ℕ)
    (data_num_per_dataset : List (List ℕ)) (f : ℕ) (b : ℕ × ℕ × ℕ)
    (hb : b ∈ (List.range (dataset_num_per_file.getD f 0)).flatMap (fun d =>
      (List.range ((data_num_per_dataset.getD f []).getD d 0)).map
        (fun lo => (f, d, lo)))) : b.1 = f := by
  obtain ⟨d, -, hbd⟩ := List.mem_flatMap.mp hb
  obtain ⟨lo, -, rfl⟩ := List.mem_map.mp hbd
  rfl

lemma gimTripleList_pairwise (file_num : ℕ) (dataset_num_per_file : List ℕ)
    (data_num_per_dataset : List (List ℕ)) :
    List.Pairwise gimLe
      (gimTripleList file_num dataset_num_per_file data_num_per_dataset) := by
  unfold gimTripleList
  refine pairwise_flatMap gimLe _ _ ?_ ?_
  · intro f _
    refine pairwise_flatMap gimLe _ _ ?_ ?_
    · intro d _
      refine pairwise_of_forall_mem gimLe _ ?_
      intro b hb b' hb'
      obtain ⟨lo, -, rfl⟩ := List.mem_map.mp hb
      obtain ⟨lo', -, rfl⟩ := List.mem_map.mp hb'
      exact Or.inr ⟨rfl, le_refl d⟩
    · refine (List.pairwise_lt_range _).imp ?_
      intro d d' hdd' b hb b' hb'
      obtain ⟨lo, -, rfl⟩ := List.mem_map.mp hb
      obtain ⟨lo', -, rfl⟩ := List.mem_map.mp hb'
      exact Or.inr ⟨rfl, le_of_lt hdd'⟩
  · refine (List.pairwise_lt_range _).imp ?_
    intro f f' hff' b hb b' hb'
    have h1 := gimTripleList_mem_fst file_num dataset_num_per_file
      data_num_per_dataset f b hb
    have h2 := gimTripleList_mem_fst file_num dataset_num_per_file
      data_num_per_dataset f' b' hb'
    exact Or.inl (by rw [h1, h2]; exact hff')

lemma gimTripleList_map_fst (file_num : ℕ)
    (data_num_per_file dataset_num_per_file : List ℕ)
    (data_num_per_dataset : List (List ℕ))
    (hblock : ∀ f, f < file_num →
      (gimDsBlock1 dataset_num_per_file data_num_per_dataset f).length =
        data_num_per_file.getD f 0) :
    (gimTripleList file_num dataset_num_per_file data_num_per_dataset).map
      (fun t => t.1) =
    (List.range file_num).flatMap (gimFileBlock data_num_per_file) := by
  unfold gimTripleList
  rw [List.map_flatMap]
  refine flatMap_congr_mem _ _ _ ?_
  intro f hf
  rw [List.mem_range] at hf
  rw [List.map_flatMap]
  have hinner : ∀ d ∈ List.range (dataset_num_per_file.getD f 0),
      ((List.range ((data_num_per_dataset.getD f []).getD d 0)).map
        (fun lo => (f, d, lo))).map (fun t => t.1) =
      List.replicate ((data_num_per_dataset.getD f []).getD d 0) f := by
    intro d _
    rw [List.map_map]
    have hcomp : ((fun t : ℕ × ℕ × ℕ => t.1) ∘ fun lo : ℕ => (f, d, lo)) =
        fun _ : ℕ => f := rfl
    rw [hcomp, List.map_const', List.length_range]
  rw [flatMap_congr_mem _ _ _ hinner, flatMap_replicate_const]
  have hsum : ((List.range (dataset_num_per_file.getD f 0)).map
      (fun d => (data_num_per_dataset.getD f []).getD d 0)).sum =
      data_num_per_file.getD f 0 := by
    have := hblock f hf
    unfold gimDsBlock1 at this
    rw [List.length_flatMap] at this
    rw [← this]
    congr 1
    refine List.map_congr_left ?_
    intro d _
    rw [Function.comp_apply, List.length_replicate]
  rw [hsum]
  rfl

lemma gimTripleList_map_snd1 (file_num : ℕ) (dataset_num_per_file : List ℕ)
    (data_num_per_dataset : List (List ℕ)) :
    (gimTripleList file_num dataset_num_per_file data_num_per_dataset).map
      (fun t => t.2.1) =
    (List.range file_num).flatMap
      (gimDsBlock1 dataset_num_per_file data_num_per_dataset) := by
  unfold gimTripleList
  rw [List.map_flatMap]
  refine flatMap_congr_mem _ _ _ ?_
  intro f _
  rw [List.map_flatMap]
  unfold gimDsBlock1
  refine flatMap_congr_mem _ _ _ ?_
  intro d _
  rw [List.map_map]
  have hcomp : ((fun t : ℕ × ℕ × ℕ => t.2.1) ∘ fun lo : ℕ => (f, d, lo)) =
      fun _ : ℕ => d := rfl
  rw [hcomp, List.map_const', List.length_range]

lemma gimTripleList_map_snd2 (file_num : ℕ) (dataset_num_per_file : List ℕ)
    (data_num_per_dataset : List (List ℕ)) :
    (gimTripleList file_num dataset_num_per_file data_num_per_dataset).map
      (fun t => t.2.2) =
    (List.range file_num).flatMap
      (gimDsBlock2 dataset_num_per_file data_num_per_dataset) := by
  unfold gimTripleList
  rw [List.map_flatMap]
  refine flatMap_congr_mem _ _ _ ?_
  intro f _
  rw [List.map_flatMap]
  unfold gimDsBlock2
  refine flatMap_congr_mem _ _ _ ?_
  intro d _
  rw [List.map_map]
  have : ((fun t : ℕ × ℕ × ℕ => t.2.2) ∘ fun lo => (f, d, lo)) = fun lo => lo := rfl
  rw [this, List.map_id']

lemma getD_map_of_lt {α β : Type} (T : List α) (h : α → β) (g : ℕ)
    (hg : g < T.length) (da : α) (db : β) :
    (T.map h).getD g db = h (T.getD g da) := by
  rw [List.getD_eq_getElem _ _ (by rw [List.length_map]; exact hg),
    List.getElem_map, List.getD_eq_getElem _ _ hg]

lemma filter_positions {α β : Type} (T : List α) (dflt : α) (p : α → Bool)
    (h : α → β) :
    ((List.range T.length).filter (fun g => p (T.getD g dflt))).map
      (fun g => h (T.getD g dflt)) = (T.filter p).map h := by
  conv_rhs => rw [← map_getD_range T dflt]
  rw [List.filter_map, List.map_map]
  rfl

lemma gimTripleList_filter_pair (file_num : ℕ) (dataset_num_per_file : List ℕ)
    (data_num_per_dataset : List (List ℕ)) (f d : ℕ) (hf : f < file_num)
    (hd : d < dataset_num_per_file.getD f 0) :
    ((gimTripleList file_num dataset_num_per_file data_num_per_dataset).filter
      (fun t => decide ((t.1, t.2.1) = (f, d)))).map (fun t => t.2.2) =
    List.range ((data_num_per_dataset.getD f []).getD d 0) := by
  unfold gimTripleList
  rw [List.filter_flatMap]
  rw [flatMap_single _ f (List.range file_num) (List.mem_range.mpr hf)
    (List.nodup_range file_num)
    (by
      intro f' _ hne
      rw [List.filter_eq_nil_iff]
      intro b hb
      obtain ⟨d', -, hbd⟩ := List.mem_flatMap.mp hb
      obtain ⟨lo, -, rfl⟩ := List.mem_map.mp hbd
      simp only [decide_eq_true_eq, Prod.mk.injEq]
      intro hcontra
      exact hne hcontra.1)]
  rw [List.filter_flatMap]
  rw [flatMap_single _ d (List.range (dataset_num_per_file.getD f 0))
    (List.mem_range.mpr hd) (List.nodup_range (dataset_num_per_file.getD f 0))
    (by
      intro d' _ hne
      rw [List.filter_eq_nil_iff]
      intro b hb
      obtain ⟨lo, -, rfl⟩ := List.mem_map.mp hb
      simp only [decide_eq_true_eq, Prod.mk.injEq]
      intro hcontra
      exact hne hcontra.2)]
  rw [List.filter_eq_self.mpr (by
    intro b hb
    obtain ⟨lo, -, rfl⟩ := List.mem_map.mp hb
    simp)]
  rw [List.map_map]
  have hcomp : ((fun t : ℕ × ℕ × ℕ => t.2.2) ∘ fun lo => (f, d, lo)) =
      fun lo : ℕ => lo := rfl
  rw [hcomp, List.map_id']

/-- CLAIM C6 (corrected), amended: the claimed monotonicity of
`get_global_index_map` holds once the input is internally consistent — besides
`data_num_total` equalling the sum of the per-file counts (with `file_num`
matching the list's length), each file's sample count must equal the sum of
its datasets' counts, and each file's dataset count must match its dataset
list.  Under these hypotheses the file row is non-decreasing, the dataset row
is non-decreasing within each file, the global indices of each
`(file, dataset)` pair are contiguous, and the local row enumerates
`0, …, count-1` within each dataset. -/
theorem C6_get_global_index_map_monotonic (data_num_total file_num : ℕ)
    (data_num_per_file dataset_num_per_file : List ℕ)
    (data_num_per_dataset : List (List ℕ))
    (hfn : data_num_per_file.length = file_num)
    (hds : ∀ f, f < file_num →
      dataset_num_per_file.getD f 0 = (data_num_per_dataset.getD f []).length)
    (hsum : ∀ f, f < file_num →
      data_num_per_file.getD f 0 = (data_num_per_dataset.getD f []).sum)
    (htot : data_num_total = data_num_per_file.sum) :
    gimMonotonicClaimAt data_num_total file_num data_num_per_file
      dataset_num_per_file data_num_per_dataset := by
  have hblock : ∀ f, f < file_num →
      (gimDsBlock1 dataset_num_per_file data_num_per_dataset f).length =
        data_num_per_file.getD f 0 ∧
      (gimDsBlock2 dataset_num_per_file data_num_per_dataset f).length =
        data_num_per_file.getD f 0 := by
    intro f hf
    constructor
    · unfold gimDsBlock1
      rw [List.length_flatMap]
      have hmap : (List.range (dataset_num_per_file.getD f 0)).map
          (List.length ∘ fun d =>
            List.replicate ((data_num_per_dataset.getD f []).getD d 0) d) =
          (List.range (dataset_num_per_file.getD f 0)).map
            (fun d => (data_num_per_dataset.getD f []).getD d 0) := by
        refine List.map_congr_left ?_
        intro d _
        rw [Function.comp_apply, List.length_replicate]
      rw [hmap, hds f hf, map_getD_range, hsum f hf]
    · unfold gimDsBlock2
      rw [List.length_flatMap]
      have hmap : (List.range (dataset_num_per_file.getD f 0)).map
          (List.length ∘ fun d =>
            List.range ((data_num_per_dataset.getD f []).getD d 0)) =
          (List.range (dataset_num_per_file.getD f 0)).map
            (fun d => (data_num_per_dataset.getD f []).getD d 0) := by
        refine List.map_congr_left ?_
        intro d _
        rw [Function.comp_apply, List.length_range]
      rw [hmap, hds f hf, map_getD_range, hsum f hf]
  have hcanlen : ((List.range file_num).flatMap
      (gimFileBlock data_num_per_file)).length = data_num_total := by
    rw [List.length_flatMap]
    have hmap : (List.range file_num).map
        (List.length ∘ gimFileBlock data_num_per_file) =
        (List.range file_num).map (fun f => data_num_per_file.getD f 0) := by
      refine List.map_congr_left ?_
      intro f _
      rw [Function.comp_apply]
      exact List.length_replicate _ _
    rw [hmap, ← hfn, map_getD_range, htot]
  have hM := gim_eq_canonical data_num_total file_num data_num_per_file
    dataset_num_per_file data_num_per_dataset hblock hcanlen.symm
  have hT0 : (get_global_index_map data_num_total file_num data_num_per_file
      dataset_num_per_file data_num_per_dataset).fileRow =
      (gimTripleList file_num dataset_num_per_file data_num_per_dataset).map
        (fun t => t.1) := by
    rw [hM]
    exact (gimTripleList_map_fst file_num data_num_per_file dataset_num_per_file
      data_num_per_dataset (fun f hf => (hblock f hf).1)).symm
  have hT1 : (get_global_index_map data_num_total file_num data_num_per_file
      dataset_num_per_file data_num_per_dataset).datasetRow =
      (gimTripleList file_num dataset_num_per_file data_num_per_dataset).map
        (fun t => t.2.1) := by
    rw [hM]
    exact (gimTripleList_map_snd1 file_num dataset_num_per_file
      data_num_per_dataset).symm
  have hT2 : (get_global_index_map data_num_total file_num data_num_per_file
      dataset_num_per_file data_num_per_dataset).localRow =
      (gimTripleList file_num dataset_num_per_file data_num_per_dataset).map
        (fun t => t.2.2) := by
    rw [hM]
    exact (gimTripleList_map_snd2 file_num dataset_num_per_file
      data_num_per_dataset).symm
  have hTlen : (gimTripleList file_num dataset_num_per_file
      data_num_per_dataset).length = data_num_total := by
    have h1 : ((gimTripleList file_num dataset_num_per_file
        data_num_per_dataset).map (fun t => t.1)).length =
        (gimTripleList file_num dataset_num_per_file data_num_per_dataset).length :=
      List.length_map _ _
    rw [gimTripleList_map_fst file_num data_num_per_file dataset_num_per_file
      data_num_per_dataset (fun f hf => (hblock f hf).1), hcanlen] at h1
    exact h1.symm
  have hpw := gimTripleList_pairwise file_num dataset_num_per_file
    data_num_per_dataset
  have hfst : ∀ g, g < data_num_total →
      (get_global_index_map data_num_total file_num data_num_per_file
        dataset_num_per_file data_num_per_dataset).fileRow.getD g 0 =
      ((gimTripleList file_num dataset_num_per_file data_num_per_dataset).getD g
        (0, 0, 0)).1 := by
    intro g hg
    rw [hT0]
    exact getD_map_of_lt _ _ g (by omega) (0, 0, 0) 0
  have hsnd1 : ∀ g, g < data_num_total →
      (get_global_index_map data_num_total file_num data_num_per_file
        dataset_num_per_file data_num_per_dataset).datasetRow.getD g 0 =
      ((gimTripleList file_num dataset_num_per_file data_num_per_dataset).getD g
        (0, 0, 0)).2.1 := by
    intro g hg
    rw [hT1]
    exact getD_map_of_lt _ _ g (by omega) (0, 0, 0) 0
  have hsnd2 : ∀ g, g < data_num_total →
      (get_global_index_map data_num_total file_num data_num_per_file
        dataset_num_per_file data_num_per_dataset).localRow.getD g 0 =
      ((gimTripleList file_num dataset_num_per_file data_num_per_dataset).getD g
        (0, 0, 0)).2.2 := by
    intro g hg
    rw [hT2]
    exact getD_map_of_lt _ _ g (by omega) (0, 0, 0) 0
  have hrel : ∀ i j, i < data_num_total → j < data_num_total → i < j →
      gimLe ((gimTripleList file_num dataset_num_per_file
          data_num_per_dataset).getD i (0, 0, 0))
        ((gimTripleList file_num dataset_num_per_file
          data_num_per_dataset).getD j (0, 0, 0)) := by
    intro i j hi hj hij
    have h := List.pairwise_iff_get.mp hpw ⟨i, by omega⟩ ⟨j, by omega⟩
      (by exact Fin.mk_lt_mk.mpr hij)
    rw [List.get_eq_getElem, List.get_eq_getElem] at h
    rw [List.getD_eq_getElem _ _ (by omega : i < (gimTripleList file_num
        dataset_num_per_file data_num_per_dataset).length),
      List.getD_eq_getElem _ _ (by omega : j < (gimTripleList file_num
        dataset_num_per_file data_num_per_dataset).length)]
    exact h
  refine ⟨?_, ?_, ?_, ?_⟩
  · -- (a) the file row is non-decreasing
    rw [hT0]
    rw [List.Sorted, List.pairwise_map]
    exact hpw.imp (fun hab => by
      rcases hab with h | h
      · exact le_of_lt h
      · exact le_of_eq h.1)
  · -- (b) the dataset row is non-decreasing within each file
    intro i hi j hj hij hfeq
    rw [Finset.mem_range] at hi hj
    rcases Nat.lt_or_ge i j with hlt | hge
    · have hg := hrel i j hi hj hlt
      rw [hfst i hi, hfst j hj] at hfeq
      rw [hsnd1 i hi, hsnd1 j hj]
      rcases hg with h | h
      · omega
      · exact h.2
    · have hij' : i = j := by omega
      subst hij'
      exact le_refl _
  · -- (c) the global indices of a (file, dataset) pair are contiguous
    intro i hi j hj k hk hij hjk hpair
    rw [Finset.mem_range] at hi hj hk
    unfold gimPair at hpair ⊢
    rw [hfst i hi, hsnd1 i hi, hfst k hk, hsnd1 k hk, Prod.mk.injEq] at hpair
    rw [hfst j hj, hsnd1 j hj, hfst i hi, hsnd1 i hi, Prod.mk.injEq]
    rcases Nat.lt_or_ge i j with hlt1 | hge1
    · rcases Nat.lt_or_ge j k with hlt2 | hge2
      · have hg1 := hrel i j hi hj hlt1
        have hg2 := hrel j k hj hk hlt2
        unfold gimLe at hg1 hg2
        omega
      · have hjk' : j = k := by omega
        subst hjk'
        exact ⟨hpair.1.symm, hpair.2.symm⟩
    · have hij' : i = j := by omega
      subst hij'
      exact ⟨rfl, rfl⟩
  · -- (d) the local row enumerates 0, …, count-1 within each dataset
    intro f hf d hd
    rw [Finset.mem_range] at hf hd
    have hd' : d < dataset_num_per_file.getD f 0 := by
      rw [hds f hf]
      exact hd
    have hrt : List.range data_num_total =
        List.range (gimTripleList file_num dataset_num_per_file
          data_num_per_dataset).length := by
      rw [hTlen]
    rw [hrt]
    rw [List.filter_congr (fun g hg => ?_)]
    rotate_left
    · exact fun g => decide ((((gimTripleList file_num dataset_num_per_file
        data_num_per_dataset).getD g (0, 0, 0)).1,
        ((gimTripleList file_num dataset_num_per_file
          data_num_per_dataset).getD g (0, 0, 0)).2.1) = (f, d))
    · rw [List.mem_range] at hg
      have hg' : g < data_num_total := by omega
      unfold gimPair
      rw [hfst g hg', hsnd1 g hg']
    rw [List.map_congr_left (fun g hg => ?_)]
    rotate_left
    · exact fun g => ((gimTripleList file_num dataset_num_per_file
        data_num_per_dataset).getD g (0, 0, 0)).2.2
    · have hg' : g < data_num_total := by
        have := (List.mem_filter.mp hg).1
        rw [List.mem_range] at this
        omega
      exact hsnd2 g hg'
    have hfp := filter_positions
      (gimTripleList file_num dataset_num_per_file data_num_per_dataset)
      (0, 0, 0) (fun t => decide ((t.1, t.2.1) = (f, d))) (fun t => t.2.2)
    rw [hfp]
    exact gimTripleList_filter_pair file_num dataset_num_per_file
      data_num_per_dataset f d hf hd'

theorem C6_get_global_index_map_monotonic_witness :
    ([2, 1] : List ℕ).length = 2 ∧
    (∀ f, f < 2 → ([2, 1] : List ℕ).getD f 0 =
      (([[1, 1], [1]] : List (List ℕ)).getD f []).length) ∧
    (∀ f, f < 2 → ([2, 1] : List ℕ).getD f 0 =
      (([[1, 1], [1]] : List (List ℕ)).getD f []).sum) ∧
    3 = ([2, 1] : List ℕ).sum ∧
    gimMonotonicClaimAt 3 2 [2, 1] [2, 1] [[1, 1], [1]] :=
  ⟨by decide, by decide, by decide, by decide,
    C6_get_global_index_map_monotonic 3 2 [2, 1] [2, 1] [[1, 1], [1]]
      (by decide) (by decide) (by decide) (by decide)⟩

/-- `np.unique`: the sorted list of the distinct values of the input. -/
def npUnique (l : List ℕ) : List ℕ := l.toFinset.sort (· ≤ ·)

/-- `np.min` of a nonempty array, as a head-seeded fold (`np.min` raises on an
empty array; every use inside `get_batch_ends` is on a provably nonempty
selection). -/
def npMin (l : List ℕ) : ℕ := l.foldl min (l.headD 0)

/-- `np.max`, same convention as `npMin`. -/
def npMax (l : List ℕ) : ℕ := l.foldl max (l.headD 0)

/-- numpy boolean selection
`dataset_pos_holder[file_pos_holder == file_idx]`. -/
def maskF (fp dp : List ℕ) (f : ℕ) : List ℕ :=
  (fp.zip dp).filterMap (fun x => if x.1 = f then some x.2 else none)

/-- numpy boolean selection
`data_pos_holder[(file_pos_holder == file_idx) & (dataset_pos_holder == dataset_idx)]`. -/
def maskFD (fp dp lp : List ℕ) (f d : ℕ) : List ℕ :=
  ((fp.zip dp).zip lp).filterMap
    (fun x => if x.1.1 = f ∧ x.1.2 = d then some x.2 else none)

/-- Embedding of the body of the batch loop of `util.get_batch_ends` (lines
326-374): `fp, dp, lp` are the three sliced rows `index_map[i, start:end]`.
The function returns, in emission order, one record
`(file_idx, dataset_idx, tmp_start, tmp_end)` per entry appended to `"Ends"`;
the `file_list` / `source_dict` name lookups that merely decorate these
indices are elided. -/
def get_batch_ends_per_batch (fp dp lp : List ℕ) : List (ℕ × ℕ × ℕ × ℕ) :=
  (npUnique fp).flatMap (fun file_idx =>
    (npUnique (maskF fp dp file_idx)).map (fun dataset_idx =>
      (file_idx, dataset_idx,
        npMin (maskFD fp dp lp file_idx dataset_idx),
        npMax (maskFD fp dp lp file_idx dataset_idx) + 1)))

/-- Embedding of `util.get_batch_ends`: for each batch range `[start, end)`
the three rows of the index map are sliced and the per-batch records are
produced. -/
def get_batch_ends (index_map : GIMap)
    (global_index_range_list : List (ℕ × ℕ)) : List (List (ℕ × ℕ × ℕ × ℕ)) :=
  global_index_range_list.map (fun r =>
    get_batch_ends_per_batch
      ((index_map.fileRow.drop r.1).take (r.2 - r.1))
      ((index_map.datasetRow.drop r.1).take (r.2 - r.1))
      ((index_map.localRow.drop r.1).take (r.2 - r.1)))

/-- One step of a window of consecutive samples of a monotonic index map:
the next sample is either the next local index of the same
`(file, dataset)` pair, or belongs to a lexicographically larger pair. -/
def gbeStep (a b : (ℕ × ℕ) × ℕ) : Prop :=
  (a.1 = b.1 ∧ b.2 = a.2 + 1) ∨
    (a.1.1 < b.1.1 ∨ (a.1.1 = b.1.1 ∧ a.1.2 < b.1.2))

/-- The samples of a run `(file, dataset, first local index, length)`. -/
def runTriples (r : ℕ × ℕ × ℕ × ℕ) : List ((ℕ × ℕ) × ℕ) :=
  (List.range' r.2.2.1 r.2.2.2).map (fun loc => ((r.1, r.2.1), loc))

/-- Strict lexicographic order on the `(file, dataset)` pairs of two runs. -/
def runLt (a b : ℕ × ℕ × ℕ × ℕ) : Prop :=
  a.1 < b.1 ∨ (a.1 = b.1 ∧ a.2.1 < b.2.1)

lemma npUnique_sorted (l : List ℕ) : List.Sorted (· ≤ ·) (npUnique l) :=
  Finset.sort_sorted _ _

lemma npUnique_nodup (l : List ℕ) : (npUnique l).Nodup :=
  Finset.sort_nodup _ _

lemma mem_npUnique (l : List ℕ) (a : ℕ) : a ∈ npUnique l ↔ a ∈ l := by
  unfold npUnique
  rw [Finset.mem_sort, List.mem_toFinset]

lemma foldl_min_of_le (l : List ℕ) :
    ∀ a, (∀ x ∈ l, a ≤ x) → l.foldl min a = a := by
  induction l with
  | nil => intro a _; rfl
  | cons x t ih =>
    intro a h
    rw [List.foldl_cons, min_eq_left (h x (List.mem_cons_self x t))]
    exact ih a (fun y hy => h y (List.mem_cons_of_mem x hy))

lemma foldl_max_of_le (l : List ℕ) :
    ∀ a, (∀ x ∈ l, x ≤ a) → l.foldl max a = a := by
  induction l with
  | nil => intro a _; rfl
  | cons x t ih =>
    intro a h
    rw [List.foldl_cons, max_eq_left (h x (List.mem_cons_self x t))]
    exact ih a (fun y hy => h y (List.mem_cons_of_mem x hy))

lemma foldl_max_eq (l : List ℕ) :
    ∀ a b, b ∈ l → (∀ x ∈ l, x ≤ b) → a ≤ b → l.foldl max a = b := by
  induction l with
  | nil => intro a b hb _ _; exact absurd hb (List.not_mem_nil b)
  | cons x t ih =>
    intro a b hb hle hab
    rw [List.foldl_cons]
    rcases List.mem_cons.mp hb with rfl | hbt
    · rw [max_eq_right hab]
      exact foldl_max_of_le t b (fun y hy => hle y (List.mem_cons_of_mem b hy))
    · exact ih (max a x) b hbt (fun y hy => hle y (List.mem_cons_of_mem x hy))
        (max_le hab (hle x (List.mem_cons_self x t)))

lemma npMin_range' (s n : ℕ) (h : 0 < n) : npMin (List.range' s n) = s := by
  obtain ⟨m, rfl⟩ : ∃ m, n = m + 1 := ⟨n - 1, by omega⟩
  unfold npMin
  rw [List.range'_succ]
  show List.foldl min ((s :: List.range' (s + 1) m).headD 0)
    (s :: List.range' (s + 1) m) = s
  rw [List.headD_cons, List.foldl_cons, min_self]
  refine foldl_min_of_le _ s ?_
  intro x hx
  have := List.mem_range'_1.mp hx
  omega

lemma npMax_range' (s n : ℕ) (h : 0 < n) :
    npMax (List.range' s n) = s + n - 1 := by
  obtain ⟨m, rfl⟩ : ∃ m, n = m + 1 := ⟨n - 1, by omega⟩
  unfold npMax
  rw [List.range'_succ]
  show List.foldl max ((s :: List.range' (s + 1) m).headD 0)
    (s :: List.range' (s + 1) m) = s + (m + 1) - 1
  rw [List.headD_cons, List.foldl_cons, max_self]
  rcases Nat.eq_zero_or_pos m with rfl | hm
  · show s = s + (0 + 1) - 1
    omega
  · have hbm : s + m ∈ List.range' (s + 1) m := by
      rw [List.mem_range'_1]
      omega
    rw [foldl_max_eq _ s (s + m) hbm
      (fun x hx => by have := List.mem_range'_1.mp hx; omega) (by omega)]
    omega

lemma runTriples_map_fst1 (r : ℕ × ℕ × ℕ × ℕ) :
    (runTriples r).map (fun x => x.1.1) = List.replicate r.2.2.2 r.1 := by
  unfold runTriples
  rw [List.map_map]
  have hc : ((fun x : (ℕ × ℕ) × ℕ => x.1.1) ∘
      (fun loc => ((r.1, r.2.1), loc))) = fun _ => r.1 := rfl
  rw [hc, List.map_const', List.length_range']

lemma runTriples_map_fst2 (r : ℕ × ℕ × ℕ × ℕ) :
    (runTriples r).map (fun x => x.1.2) = List.replicate r.2.2.2 r.2.1 := by
  unfold runTriples
  rw [List.map_map]
  have hc : ((fun x : (ℕ × ℕ) × ℕ => x.1.2) ∘
      (fun loc => ((r.1, r.2.1), loc))) = fun _ => r.2.1 := rfl
  rw [hc, List.map_const', List.length_range']

lemma runTriples_map_pair (r : ℕ × ℕ × ℕ × ℕ) :
    (runTriples r).map (fun x => x.1) = List.replicate r.2.2.2 (r.1, r.2.1) := by
  unfold runTriples
  rw [List.map_map]
  have hc : ((fun x : (ℕ × ℕ) × ℕ => x.1) ∘
      (fun loc => ((r.1, r.2.1), loc))) = fun _ => (r.1, r.2.1) := rfl
  rw [hc, List.map_const', List.length_range']

lemma runTriples_map_snd (r : ℕ × ℕ × ℕ × ℕ) :
    (runTriples r).map (fun x => x.2) = List.range' r.2.2.1 r.2.2.2 := by
  unfold runTriples
  rw [List.map_map]
  have hc : ((fun x : (ℕ × ℕ) × ℕ => x.2) ∘
      (fun loc => ((r.1, r.2.1), loc))) = id := rfl
  rw [hc, List.map_id]

lemma runLt_trans (a b c : ℕ × ℕ × ℕ × ℕ) :
    runLt a b → runLt b c → runLt a c := by
  unfold runLt
  omega

lemma pairwise_runLt_nodup (rs : List (ℕ × ℕ × ℕ × ℕ))
    (h : rs.Pairwise runLt) : rs.Nodup :=
  h.imp (fun hab => by
    intro hEq
    subst hEq
    unfold runLt at hab
    omega)

/-- Any window satisfying the monotone-map step relation decomposes into a
list of runs with lexicographically increasing `(file, dataset)` pairs. -/
lemma chain_decomp :
    ∀ w : List ((ℕ × ℕ) × ℕ), List.Chain' gbeStep w →
      ∃ rs : List (ℕ × ℕ × ℕ × ℕ),
        w = rs.flatMap runTriples ∧ (∀ r ∈ rs, 0 < r.2.2.2) ∧
          List.Pairwise runLt rs := by
  intro w
  induction w with
  | nil =>
    intro _
    exact ⟨[], by simp, by simp, List.Pairwise.nil⟩
  | cons x w' ih =>
    intro hchain
    obtain ⟨hhead, htail⟩ := List.chain'_cons'.mp hchain
    obtain ⟨rs', hw', hpos', hpw'⟩ := ih htail
    cases rs' with
    | nil =>
      have hw'' : w' = [] := by
        simpa using hw'
      subst hw''
      refine ⟨[(x.1.1, x.1.2, x.2, 1)], ?_, ?_, ?_⟩
      · unfold runTriples
        simp [List.range'_one]
      · intro r hr
        rw [List.mem_singleton] at hr
        subst hr
        exact Nat.one_pos
      · simp
    | cons r0 rest =>
      have hn0 : 0 < r0.2.2.2 := hpos' r0 (List.mem_cons_self _ _)
      obtain ⟨m, hm⟩ : ∃ m, r0.2.2.2 = m + 1 := ⟨r0.2.2.2 - 1, by omega⟩
      have hhd : w'.head? = some ((r0.1, r0.2.1), r0.2.2.1) := by
        rw [hw', List.flatMap_cons]
        unfold runTriples
        rw [hm, List.range'_succ, List.map_cons, List.cons_append,
          List.head?_cons]
      have hstep : gbeStep x ((r0.1, r0.2.1), r0.2.2.1) :=
        hhead _ (Option.mem_def.mpr hhd)
      rcases hstep with ⟨hpair, hloc⟩ | hlt
      · dsimp only at hpair hloc
        refine ⟨(r0.1, r0.2.1, x.2, r0.2.2.2 + 1) :: rest, ?_, ?_, ?_⟩
        · rw [List.flatMap_cons, hw', List.flatMap_cons]
          have hrt : runTriples (r0.1, r0.2.1, x.2, r0.2.2.2 + 1) =
              x :: runTriples r0 := by
            unfold runTriples
            dsimp only
            rw [List.range'_succ, List.map_cons]
            congr 1
            · rw [← hpair]
            · rw [hloc]
          rw [hrt, List.cons_append]
        · intro r hr
          rcases List.mem_cons.mp hr with rfl | hr'
          · show 0 < r0.2.2.2 + 1
            omega
          · exact hpos' r (List.mem_cons_of_mem _ hr')
        · rw [List.pairwise_cons] at hpw' ⊢
          exact ⟨fun r hr => hpw'.1 r hr, hpw'.2⟩
      · refine ⟨(x.1.1, x.1.2, x.2, 1) :: r0 :: rest, ?_, ?_, ?_⟩
        · rw [List.flatMap_cons, hw']
          have hrt2 : runTriples (x.1.1, x.1.2, x.2, 1) = [x] := by
            unfold runTriples
            dsimp only
            simp [List.range'_one]
          rw [hrt2, List.singleton_append]
        · intro r hr
          rcases List.mem_cons.mp hr with rfl | hr'
          · exact Nat.one_pos
          · exact hpos' r hr'
        · rw [List.pairwise_cons]
          refine ⟨?_, hpw'⟩
          intro r hr
          rcases List.mem_cons.mp hr with rfl | hr'
          · exact hlt
          · exact runLt_trans _ _ _ hlt ((List.pairwise_cons.mp hpw').1 r hr')

lemma map_flatMap_comm {α β γ : Type} (l : List α) (g : α → List β)
    (f : β → γ) :
    (l.flatMap g).map f = l.flatMap (fun a => (g a).map f) := by
  induction l with
  | nil => rfl
  | cons a t ih =>
    rw [List.flatMap_cons, List.flatMap_cons, List.map_append, ih]

lemma filterMap_flatMap_comm {α β γ : Type} (l : List α) (g : α → List β)
    (p : β → Option γ) :
    (l.flatMap g).filterMap p = l.flatMap (fun a => (g a).filterMap p) := by
  induction l with
  | nil => rfl
  | cons a t ih =>
    rw [List.flatMap_cons, List.flatMap_cons, List.filterMap_append, ih]

lemma filterMap_replicate_none {α β : Type} (n : ℕ) (a : α)
    (p : α → Option β) (h : p a = none) :
    (List.replicate n a).filterMap p = [] := by
  induction n with
  | zero => rfl
  | succ k ih =>
    rw [List.replicate_succ, List.filterMap_cons_none h, ih]

lemma filterMap_replicate_some {α β : Type} (n : ℕ) (a : α)
    (p : α → Option β) (b : β) (h : p a = some b) :
    (List.replicate n a).filterMap p = List.replicate n b := by
  induction n with
  | zero => rfl
  | succ k ih =>
    rw [List.replicate_succ, List.filterMap_cons_some h, ih,
      List.replicate_succ]

lemma canon_fp (rs : List (ℕ × ℕ × ℕ × ℕ)) :
    (rs.flatMap runTriples).map (fun x => x.1.1) =
      rs.flatMap (fun r => List.replicate r.2.2.2 r.1) := by
  rw [map_flatMap_comm]
  exact flatMap_congr_mem _ _ _ (fun r _ => runTriples_map_fst1 r)

lemma canon_pairs (rs : List (ℕ × ℕ × ℕ × ℕ)) :
    (rs.flatMap runTriples).map (fun x => x.1) =
      rs.flatMap (fun r => List.replicate r.2.2.2 (r.1, r.2.1)) := by
  rw [map_flatMap_comm]
  exact flatMap_congr_mem _ _ _ (fun r _ => runTriples_map_pair r)

lemma canon_maskF (rs : List (ℕ × ℕ × ℕ × ℕ)) (f : ℕ) :
    maskF ((rs.flatMap runTriples).map (fun x => x.1.1))
      ((rs.flatMap runTriples).map (fun x => x.1.2)) f =
      rs.flatMap (fun r =>
        if r.1 = f then List.replicate r.2.2.2 r.2.1 else []) := by
  unfold maskF
  rw [List.zip_map']
  have hpe : (fun x : (ℕ × ℕ) × ℕ => (x.1.1, x.1.2)) = fun x => x.1 := rfl
  rw [hpe, canon_pairs, filterMap_flatMap_comm]
  refine flatMap_congr_mem _ _ _ (fun r _ => ?_)
  by_cases hrf : r.1 = f
  · rw [filterMap_replicate_some _ _ _ r.2.1 (by simp [hrf]), if_pos hrf]
  · rw [filterMap_replicate_none _ _ _ (by simp [hrf]), if_neg hrf]

lemma canon_maskFD (rs : List (ℕ × ℕ × ℕ × ℕ)) (f d : ℕ) :
    maskFD ((rs.flatMap runTriples).map (fun x => x.1.1))
      ((rs.flatMap runTriples).map (fun x => x.1.2))
      ((rs.flatMap runTriples).map (fun x => x.2)) f d =
      rs.flatMap (fun r =>
        if r.1 = f ∧ r.2.1 = d then List.range' r.2.2.1 r.2.2.2 else []) := by
  unfold maskFD
  rw [List.zip_map', List.zip_map']
  have hpe : (fun x : (ℕ × ℕ) × ℕ => ((x.1.1, x.1.2), x.2)) = fun x => x := rfl
  rw [hpe, List.map_id', filterMap_flatMap_comm]
  refine flatMap_congr_mem _ _ _ (fun r _ => ?_)
  unfold runTriples
  rw [List.filterMap_map]
  by_cases hrd : r.1 = f ∧ r.2.1 = d
  · have hfn : ((fun x : (ℕ × ℕ) × ℕ =>
        if x.1.1 = f ∧ x.1.2 = d then some x.2 else none) ∘
        (fun loc => ((r.1, r.2.1), loc))) = fun loc => some loc := by
      funext loc
      simp [hrd.1, hrd.2]
    rw [hfn, if_pos hrd]
    simp
  · have hfn : ((fun x : (ℕ × ℕ) × ℕ =>
        if x.1.1 = f ∧ x.1.2 = d then some x.2 else none) ∘
        (fun loc => ((r.1, r.2.1), loc))) = fun _ => none := by
      funext loc
      have : ¬ (r.1 = f ∧ r.2.1 = d) := hrd
      simp only [Function.comp_apply]
      rw [if_neg this]
    rw [hfn, if_neg hrd]
    simp

/-- Group-by recomposition: flat-mapping the key-filters of a key-sorted list
over the sorted deduplicated key list recovers the list itself. -/
lemma flatMap_filter_key {α : Type} (key : α → ℕ) :
    ∀ (rs : List α) (F : List ℕ), List.Pairwise (· ≤ ·) F → F.Nodup →
      (∀ f, f ∈ F ↔ f ∈ rs.map key) →
      List.Pairwise (· ≤ ·) (rs.map key) →
      F.flatMap (fun f => rs.filter (fun r => decide (key r = f))) = rs := by
  intro rs
  induction rs with
  | nil =>
    intro F _ _ hmem _
    have hF : F = [] := List.eq_nil_iff_forall_not_mem.mpr (fun f hf => by
      have := (hmem f).mp hf
      simp at this)
    subst hF
    rfl
  | cons r rest ih =>
    intro F hFs hFn hmem hks
    have hrF : key r ∈ F := (hmem (key r)).mpr (by simp)
    cases F with
    | nil => exact absurd hrF (List.not_mem_nil _)
    | cons f0 T =>
      rw [List.map_cons] at hmem hks
      have hf0 : f0 = key r := by
        have h1 : f0 ∈ key r :: rest.map key :=
          (hmem f0).mp (List.mem_cons_self _ _)
        have h2 : key r ≤ f0 := by
          rcases List.mem_cons.mp h1 with he | hm
          · omega
          · exact (List.pairwise_cons.mp hks).1 _ hm
        have h3 : f0 ≤ key r := by
          rcases List.mem_cons.mp hrF with he | hm
          · omega
          · exact (List.pairwise_cons.mp hFs).1 _ hm
        omega
      subst hf0
      have hTnotin : key r ∉ T := (List.nodup_cons.mp hFn).1
      have hTn : T.Nodup := (List.nodup_cons.mp hFn).2
      have hTs : List.Pairwise (· ≤ ·) T := (List.pairwise_cons.mp hFs).2
      have hkrest : List.Pairwise (· ≤ ·) (rest.map key) :=
        (List.pairwise_cons.mp hks).2
      rw [List.flatMap_cons]
      have hfilt_head : (r :: rest).filter
          (fun r' => decide (key r' = key r)) =
          r :: rest.filter (fun r' => decide (key r' = key r)) := by
        rw [List.filter_cons_of_pos (by simp)]
      have hfilt_tail : T.flatMap (fun f =>
          (r :: rest).filter (fun r' => decide (key r' = f))) =
          T.flatMap (fun f =>
            rest.filter (fun r' => decide (key r' = f))) := by
        refine flatMap_congr_mem _ _ _ (fun f hf => ?_)
        have hne : key r ≠ f := fun he => hTnotin (he ▸ hf)
        rw [List.filter_cons_of_neg (by simp [hne])]
      rw [hfilt_head, hfilt_tail]
      by_cases hkr : key r ∈ rest.map key
      · have hmem' : ∀ f, f ∈ key r :: T ↔ f ∈ rest.map key := by
          intro f
          constructor
          · intro hf
            rcases List.mem_cons.mp ((hmem f).mp hf) with he | hm
            · exact he ▸ hkr
            · exact hm
          · intro hf
            exact (hmem f).mpr (List.mem_cons_of_mem _ hf)
        have := ih (key r :: T) hFs hFn hmem' hkrest
        rw [List.flatMap_cons] at this
        rw [List.cons_append, this]
      · have hmem_T : ∀ f, f ∈ T ↔ f ∈ rest.map key := by
          intro f
          constructor
          · intro hf
            rcases List.mem_cons.mp
                ((hmem f).mp (List.mem_cons_of_mem _ hf)) with he | hm
            · exact absurd (he ▸ hf) hTnotin
            · exact hm
          · intro hf
            have hne : f ≠ key r := fun he => hkr (he ▸ hf)
            rcases List.mem_cons.mp ((hmem f).mpr
                (List.mem_cons_of_mem _ hf)) with he | hm
            · exact absurd he hne
            · exact hm
        have hfe : rest.filter (fun r' => decide (key r' = key r)) = [] := by
          rw [List.filter_eq_nil_iff]
          intro x hx
          simp only [decide_eq_true_eq]
          intro he
          exact hkr (he ▸ List.mem_map_of_mem key hx)
        rw [hfe, ih T hTs hTn hmem_T hkrest, List.cons_append, List.nil_append]

lemma pairwise_total_cases {α : Type} (R : α → α → Prop) :
    ∀ l : List α, l.Pairwise R → ∀ a ∈ l, ∀ b ∈ l, a = b ∨ R a b ∨ R b a := by
  intro l
  induction l with
  | nil => intro _ a ha; exact absurd ha (List.not_mem_nil a)
  | cons x t ih =>
    intro hp a ha b hb
    rw [List.pairwise_cons] at hp
    rcases List.mem_cons.mp ha with rfl | ha' <;>
      rcases List.mem_cons.mp hb with rfl | hb'
    · exact Or.inl rfl
    · exact Or.inr (Or.inl (hp.1 b hb'))
    · exact Or.inr (Or.inr (hp.1 a ha'))
    · exact ih hp.2 a ha' b hb'

lemma pairwise_imp_mem {α : Type} (R S : α → α → Prop) :
    ∀ l : List α, l.Pairwise R → (∀ a ∈ l, ∀ b ∈ l, R a b → S a b) →
      l.Pairwise S := by
  intro l
  induction l with
  | nil => intro _ _; exact List.Pairwise.nil
  | cons x t ih =>
    intro hp himp
    rw [List.pairwise_cons] at hp ⊢
    refine ⟨fun b hb => himp x (List.mem_cons_self x t) b
      (List.mem_cons_of_mem x hb) (hp.1 b hb), ?_⟩
    exact ih hp.2 (fun a ha b hb h =>
      himp a (List.mem_cons_of_mem x ha) b (List.mem_cons_of_mem x hb) h)

lemma mem_canon_fp (rs : List (ℕ × ℕ × ℕ × ℕ))
    (hpos : ∀ r ∈ rs, 0 < r.2.2.2) (f : ℕ) :
    f ∈ (rs.flatMap runTriples).map (fun x => x.1.1) ↔
      f ∈ rs.map (fun r => r.1) := by
  rw [canon_fp]
  constructor
  · intro h
    obtain ⟨r, hr, hfr⟩ := List.mem_flatMap.mp h
    rw [List.mem_replicate] at hfr
    rw [hfr.2]
    exact List.mem_map_of_mem _ hr
  · intro h
    obtain ⟨r, hr, rfl⟩ := List.mem_map.mp h
    exact List.mem_flatMap.mpr ⟨r, hr, List.mem_replicate.mpr
      ⟨by have := hpos r hr; omega, rfl⟩⟩

lemma mem_canon_maskF (rs : List (ℕ × ℕ × ℕ × ℕ))
    (hpos : ∀ r ∈ rs, 0 < r.2.2.2) (f d : ℕ) :
    d ∈ maskF ((rs.flatMap runTriples).map (fun x => x.1.1))
      ((rs.flatMap runTriples).map (fun x => x.1.2)) f ↔
      d ∈ (rs.filter (fun r => decide (r.1 = f))).map (fun r => r.2.1) := by
  rw [canon_maskF]
  constructor
  · intro h
    obtain ⟨r, hr, hd⟩ := List.mem_flatMap.mp h
    by_cases hr1 : r.1 = f
    · rw [if_pos hr1, List.mem_replicate] at hd
      rw [hd.2]
      exact List.mem_map_of_mem _ (List.mem_filter.mpr ⟨hr, by simp [hr1]⟩)
    · rw [if_neg hr1] at hd
      exact absurd hd (List.not_mem_nil d)
  · intro h
    obtain ⟨r, hrf, rfl⟩ := List.mem_map.mp h
    obtain ⟨hr, hdec⟩ := List.mem_filter.mp hrf
    have hr1 : r.1 = f := by simpa using hdec
    exact List.mem_flatMap.mpr ⟨r, hr, by
      rw [if_pos hr1]
      exact List.mem_replicate.mpr ⟨by have := hpos r hr; omega, rfl⟩⟩

lemma npUnique_maskF_eq (rs : List (ℕ × ℕ × ℕ × ℕ))
    (hpos : ∀ r ∈ rs, 0 < r.2.2.2) (hpw : rs.Pairwise runLt) (f : ℕ) :
    npUnique (maskF ((rs.flatMap runTriples).map (fun x => x.1.1))
      ((rs.flatMap runTriples).map (fun x => x.1.2)) f) =
      (rs.filter (fun r => decide (r.1 = f))).map (fun r => r.2.1) := by
  have hflt : List.Pairwise (· < ·)
      ((rs.filter (fun r => decide (r.1 = f))).map (fun r => r.2.1)) := by
    rw [List.pairwise_map]
    refine pairwise_imp_mem _ _ _ (hpw.filter _) ?_
    intro a ha b hb hab
    have ha1 : a.1 = f := by simpa using (List.mem_filter.mp ha).2
    have hb1 : b.1 = f := by simpa using (List.mem_filter.mp hb).2
    unfold runLt at hab
    omega
  refine List.eq_of_perm_of_sorted ?_ (npUnique_sorted _) (hflt.imp le_of_lt)
  refine List.perm_of_nodup_nodup_toFinset_eq (npUnique_nodup _)
    (hflt.imp (fun h => Nat.ne_of_lt h)) ?_
  refine Finset.ext (fun d => ?_)
  rw [List.mem_toFinset, List.mem_toFinset, mem_npUnique]
  exact mem_canon_maskF rs hpos f d

lemma gbe_canonical (rs : List (ℕ × ℕ × ℕ × ℕ))
    (hpos : ∀ r ∈ rs, 0 < r.2.2.2) (hpw : rs.Pairwise runLt) :
    get_batch_ends_per_batch
      ((rs.flatMap runTriples).map (fun x => x.1.1))
      ((rs.flatMap runTriples).map (fun x => x.1.2))
      ((rs.flatMap runTriples).map (fun x => x.2)) =
    rs.map (fun r => (r.1, r.2.1, r.2.2.1, r.2.2.1 + r.2.2.2)) := by
  have hnd : rs.Nodup := pairwise_runLt_nodup rs hpw
  have huniq : ∀ r ∈ rs, ∀ r' ∈ rs, r.1 = r'.1 → r.2.1 = r'.2.1 → r = r' := by
    intro r hr r' hr' h1 h2
    rcases pairwise_total_cases runLt rs hpw r hr r' hr' with he | hlt | hlt
    · exact he
    · unfold runLt at hlt
      omega
    · unfold runLt at hlt
      omega
  unfold get_batch_ends_per_batch
  have hstep1 : ∀ f ∈ npUnique ((rs.flatMap runTriples).map (fun x => x.1.1)),
      (npUnique (maskF ((rs.flatMap runTriples).map (fun x => x.1.1))
        ((rs.flatMap runTriples).map (fun x => x.1.2)) f)).map (fun d =>
          (f, d,
            npMin (maskFD ((rs.flatMap runTriples).map (fun x => x.1.1))
              ((rs.flatMap runTriples).map (fun x => x.1.2))
              ((rs.flatMap runTriples).map (fun x => x.2)) f d),
            npMax (maskFD ((rs.flatMap runTriples).map (fun x => x.1.1))
              ((rs.flatMap runTriples).map (fun x => x.1.2))
              ((rs.flatMap runTriples).map (fun x => x.2)) f d) + 1)) =
      (rs.filter (fun r => decide (r.1 = f))).map
        (fun r => (r.1, r.2.1, r.2.2.1, r.2.2.1 + r.2.2.2)) := by
    intro f _
    rw [npUnique_maskF_eq rs hpos hpw f, List.map_map]
    refine List.map_congr_left ?_
    intro r' hr'f
    obtain ⟨hr', hdec⟩ := List.mem_filter.mp hr'f
    have hr1 : r'.1 = f := by simpa using hdec
    have hp' : 0 < r'.2.2.2 := hpos r' hr'
    have hmfd : maskFD ((rs.flatMap runTriples).map (fun x => x.1.1))
        ((rs.flatMap runTriples).map (fun x => x.1.2))
        ((rs.flatMap runTriples).map (fun x => x.2)) f r'.2.1 =
        List.range' r'.2.2.1 r'.2.2.2 := by
      rw [canon_maskFD]
      have hv : ∀ r ∈ rs, r ≠ r' →
          (if r.1 = f ∧ r.2.1 = r'.2.1 then List.range' r.2.2.1 r.2.2.2
            else []) = [] := by
        intro r hr hne
        rw [if_neg]
        intro hc
        exact hne (huniq r hr r' hr' (hc.1.trans hr1.symm) hc.2)
      rw [flatMap_single _ r' rs hr' hnd hv, if_pos ⟨hr1, rfl⟩]
    simp only [Function.comp_apply]
    rw [hmfd, npMin_range' _ _ hp', npMax_range' _ _ hp']
    have hX : r'.2.2.1 + r'.2.2.2 - 1 + 1 = r'.2.2.1 + r'.2.2.2 := by omega
    rw [hX, ← hr1]
  rw [flatMap_congr_mem _ _ _ hstep1, ← map_flatMap_comm,
    flatMap_filter_key (fun r : ℕ × ℕ × ℕ × ℕ => r.1) rs _
      (npUnique_sorted _) (npUnique_nodup _)
      (fun f => (mem_npUnique _ f).trans (mem_canon_fp rs hpos f))
      (List.pairwise_map.mpr (hpw.imp (fun h => by unfold runLt at h; omega)))]

lemma flatMap_map_comm {α β γ : Type} (l : List α) (f : α → β)
    (g : β → List γ) :
    (l.map f).flatMap g = l.flatMap (fun a => g (f a)) := by
  induction l with
  | nil => rfl
  | cons a t ih =>
    rw [List.map_cons, List.flatMap_cons, List.flatMap_cons, ih]

/-- Coalescing property of the per-batch body of `get_batch_ends`, for any
window of rows satisfying the monotone-map step relation: expanding each
emitted `(file, dataset, start, end)` record back into per-sample triples
recovers exactly the window; the emitted `(file, dataset)` pairs are
pairwise distinct; and every emitted half-open range is nonempty. -/
lemma gbe_window (fp dp lp : List ℕ)
    (h1 : fp.length = dp.length) (h2 : dp.length = lp.length)
    (hchain : List.Chain' gbeStep ((fp.zip dp).zip lp)) :
    (get_batch_ends_per_batch fp dp lp).flatMap (fun t =>
      (List.range' t.2.2.1 (t.2.2.2 - t.2.2.1)).map
        (fun loc => ((t.1, t.2.1), loc))) = (fp.zip dp).zip lp ∧
    ((get_batch_ends_per_batch fp dp lp).map (fun t => (t.1, t.2.1))).Nodup ∧
    ∀ t ∈ get_batch_ends_per_batch fp dp lp, t.2.2.1 < t.2.2.2 := by
  obtain ⟨rs, hw, hpos, hpw⟩ := chain_decomp _ hchain
  have hle1 : fp.length ≤ dp.length := h1.le
  have hzlen : (fp.zip dp).length = fp.length := by
    rw [List.length_zip]
    omega
  have hle2 : (fp.zip dp).length ≤ lp.length := by omega
  have hle3 : lp.length ≤ (fp.zip dp).length := by omega
  have hfp : ((fp.zip dp).zip lp).map (fun x => x.1.1) = fp := by
    have hc : (fun x : (ℕ × ℕ) × ℕ => x.1.1) =
        (Prod.fst ∘ Prod.fst) := rfl
    rw [hc, ← List.map_map, List.map_fst_zip _ _ hle2,
      List.map_fst_zip _ _ hle1]
  have hdp : ((fp.zip dp).zip lp).map (fun x => x.1.2) = dp := by
    have hc : (fun x : (ℕ × ℕ) × ℕ => x.1.2) =
        (Prod.snd ∘ Prod.fst) := rfl
    rw [hc, ← List.map_map, List.map_fst_zip _ _ hle2,
      List.map_snd_zip _ _ h1.ge]
  have hlp : ((fp.zip dp).zip lp).map (fun x => x.2) = lp := by
    have hc : (fun x : (ℕ × ℕ) × ℕ => x.2) = Prod.snd := rfl
    rw [hc, List.map_snd_zip _ _ hle3]
  have hfp2 : fp = (rs.flatMap runTriples).map (fun x => x.1.1) := by
    rw [← hfp, hw]
  have hdp2 : dp = (rs.flatMap runTriples).map (fun x => x.1.2) := by
    rw [← hdp, hw]
  have hlp2 : lp = (rs.flatMap runTriples).map (fun x => x.2) := by
    rw [← hlp, hw]
  rw [hw, hfp2, hdp2, hlp2, gbe_canonical rs hpos hpw]
  refine ⟨?_, ?_, ?_⟩
  · rw [flatMap_map_comm]
    refine flatMap_congr_mem _ _ _ (fun r _ => ?_)
    dsimp only
    unfold runTriples
    have hn : r.2.2.1 + r.2.2.2 - r.2.2.1 = r.2.2.2 := by omega
    rw [hn]
  · rw [List.map_map]
    exact List.Pairwise.map _ (fun a b hab => by
      intro he
      rw [Function.comp_apply, Function.comp_apply] at he
      dsimp only at he
      rw [Prod.mk.injEq] at he
      unfold runLt at hab
      omega) hpw
  · intro t ht
    obtain ⟨r, hr, rfl⟩ := List.mem_map.mp ht
    have := hpos r hr
    dsimp only
    omega

lemma chain'_flatMap {α β : Type} (R : β → β → Prop) (g : α → List β) :
    ∀ l : List α, (∀ a ∈ l, List.Chain' R (g a)) →
      List.Pairwise (fun a b => ∀ x ∈ g a, ∀ y ∈ g b, R x y) l →
      List.Chain' R (l.flatMap g) := by
  intro l
  induction l with
  | nil => intro _ _; exact List.chain'_nil
  | cons a t ih =>
    intro hall hpw
    rw [List.flatMap_cons]
    rw [List.pairwise_cons] at hpw
    rw [List.chain'_append]
    refine ⟨hall a (List.mem_cons_self a t),
      ih (fun b hb => hall b (List.mem_cons_of_mem a hb)) hpw.2, ?_⟩
    intro x hx y hy
    have hxm : x ∈ g a := List.mem_of_mem_getLast? hx
    have hym : y ∈ t.flatMap g := List.mem_of_mem_head? hy
    obtain ⟨b, hb, hyb⟩ := List.mem_flatMap.mp hym
    exact hpw.1 b hb x hxm y hyb

lemma chain'_succ_range' {α : Type} (R : α → α → Prop) (f : ℕ → α)
    (h : ∀ i, R (f i) (f (i + 1))) :
    ∀ n s, List.Chain' R ((List.range' s n).map f) := by
  intro n
  induction n with
  | zero => intro s; exact List.chain'_nil
  | succ m ih =>
    intro s
    rw [List.range'_succ, List.map_cons, List.chain'_cons']
    refine ⟨?_, ih (s + 1)⟩
    intro y hy
    cases m with
    | zero => simp at hy
    | succ k =>
      rw [List.range'_succ, List.map_cons, List.head?_cons,
        Option.mem_def, Option.some.injEq] at hy
      rw [← hy]
      exact h s

lemma chain'_drop {α : Type} (R : α → α → Prop) (l : List α) (s : ℕ)
    (h : List.Chain' R l) : List.Chain' R (l.drop s) :=
  (List.chain'_append.mp
    ((by rw [List.take_append_drop] : l.take s ++ l.drop s = l) ▸ h)).2.1

lemma chain'_take {α : Type} (R : α → α → Prop) (l : List α) (k : ℕ)
    (h : List.Chain' R l) : List.Chain' R (l.take k) :=
  (List.chain'_append.mp
    ((by rw [List.take_append_drop] : l.take k ++ l.drop k = l) ▸ h)).1

/-- The canonical triple list of `get_global_index_map`, projected to
`((file, dataset), local)`, satisfies the monotone-map step relation. -/
lemma gimTripleList_chain' (file_num : ℕ) (dataset_num_per_file : List ℕ)
    (data_num_per_dataset : List (List ℕ)) :
    List.Chain' gbeStep
      ((gimTripleList file_num dataset_num_per_file data_num_per_dataset).map
        (fun t => ((t.1, t.2.1), t.2.2))) := by
  unfold gimTripleList
  rw [map_flatMap_comm]
  refine chain'_flatMap _ _ _ ?_ ?_
  · intro f _
    rw [map_flatMap_comm]
    refine chain'_flatMap _ _ _ ?_ ?_
    · intro d _
      rw [List.map_map]
      have hc : ((fun t : ℕ × ℕ × ℕ => ((t.1, t.2.1), t.2.2)) ∘
          (fun lo => (f, d, lo))) = fun lo => ((f, d), lo) := rfl
      rw [hc, List.range_eq_range']
      exact chain'_succ_range' gbeStep (fun lo => ((f, d), lo))
        (fun i => Or.inl ⟨rfl, rfl⟩) _ 0
    · refine (List.pairwise_lt_range _).imp ?_
      intro d d' hdd' x hx y hy
      obtain ⟨t, ht, rfl⟩ := List.mem_map.mp hx
      obtain ⟨lo, hlo, rfl⟩ := List.mem_map.mp ht
      obtain ⟨t', ht', rfl⟩ := List.mem_map.mp hy
      obtain ⟨lo', hlo', rfl⟩ := List.mem_map.mp ht'
      exact Or.inr (Or.inr ⟨rfl, hdd'⟩)
  · refine (List.pairwise_lt_range _).imp ?_
    intro f f' hff' x hx y hy
    obtain ⟨t, ht, rfl⟩ := List.mem_map.mp hx
    obtain ⟨d, hd, htd⟩ := List.mem_flatMap.mp ht
    obtain ⟨lo, hlo, rfl⟩ := List.mem_map.mp htd
    obtain ⟨t', ht', rfl⟩ := List.mem_map.mp hy
    obtain ⟨d', hd', htd'⟩ := List.mem_flatMap.mp ht'
    obtain ⟨lo', hlo', rfl⟩ := List.mem_map.mp htd'
    exact Or.inr (Or.inl hff')

lemma map_drop_comm {α β : Type} (f : α → β) :
    ∀ (l : List α) (n : ℕ), (l.map f).drop n = (l.drop n).map f := by
  intro l
  induction l with
  | nil => intro n; simp
  | cons a t ih =>
    intro n
    cases n with
    | zero => rfl
    | succ m =>
      rw [List.map_cons, List.drop_succ_cons, List.drop_succ_cons, ih]

lemma map_take_comm {α β : Type} (f : α → β) :
    ∀ (l : List α) (n : ℕ), (l.map f).take n = (l.take n).map f := by
  intro l
  induction l with
  | nil => intro n; simp
  | cons a t ih =>
    intro n
    cases n with
    | zero => rfl
    | succ m =>
      rw [List.map_cons, List.take_succ_cons, List.take_succ_cons, ih,
        List.map_cons]

/-- CLAIM C7: for every batch whose half-open global index range `[s, e)` is
taken over the (monotonic) index map produced by `get_global_index_map` on an
internally consistent input, the batch's entry of `get_batch_ends` emits for
each `(file, dataset)` pair touched by the batch exactly one nonempty
half-open local range — expanding the emitted records in their file-then-
dataset emission order reproduces exactly the batch's
`((file, dataset), local)` samples, and the emitted pairs are pairwise
distinct — never one read per sample. -/
theorem C7_get_batch_ends_coalesced (data_num_total file_num s e : ℕ)
    (data_num_per_file dataset_num_per_file : List ℕ)
    (data_num_per_dataset : List (List ℕ))
    (hfn : data_num_per_file.length = file_num)
    (hds : ∀ f, f < file_num →
      dataset_num_per_file.getD f 0 = (data_num_per_dataset.getD f []).length)
    (hsum : ∀ f, f < file_num →
      data_num_per_file.getD f 0 = (data_num_per_dataset.getD f []).sum)
    (htot : data_num_total = data_num_per_file.sum) :
    ∀ E ∈ get_batch_ends (get_global_index_map data_num_total file_num
        data_num_per_file dataset_num_per_file data_num_per_dataset) [(s, e)],
      E.flatMap (fun t =>
        (List.range' t.2.2.1 (t.2.2.2 - t.2.2.1)).map
          (fun loc => ((t.1, t.2.1), loc))) =
        ((((get_global_index_map data_num_total file_num data_num_per_file
              dataset_num_per_file data_num_per_dataset).fileRow.drop s).take
              (e - s)).zip
          (((get_global_index_map data_num_total file_num data_num_per_file
              dataset_num_per_file data_num_per_dataset).datasetRow.drop
              s).take (e - s))).zip
          (((get_global_index_map data_num_total file_num data_num_per_file
              dataset_num_per_file data_num_per_dataset).localRow.drop s).take
              (e - s)) ∧
      (E.map (fun t => (t.1, t.2.1))).Nodup ∧
      ∀ t ∈ E, t.2.2.1 < t.2.2.2 := by
  have hblock : ∀ f, f < file_num →
      (gimDsBlock1 dataset_num_per_file data_num_per_dataset f).length =
        data_num_per_file.getD f 0 ∧
      (gimDsBlock2 dataset_num_per_file data_num_per_dataset f).length =
        data_num_per_file.getD f 0 := by
    intro f hf
    constructor
    · unfold gimDsBlock1
      rw [List.length_flatMap]
      have hmap : (List.range (dataset_num_per_file.getD f 0)).map
          (List.length ∘ fun d =>
            List.replicate ((data_num_per_dataset.getD f []).getD d 0) d) =
          (List.range (dataset_num_per_file.getD f 0)).map
            (fun d => (data_num_per_dataset.getD f []).getD d 0) := by
        refine List.map_congr_left ?_
        intro d _
        rw [Function.comp_apply, List.length_replicate]
      rw [hmap, hds f hf, map_getD_range, hsum f hf]
    · unfold gimDsBlock2
      rw [List.length_flatMap]
      have hmap : (List.range (dataset_num_per_file.getD f 0)).map
          (List.length ∘ fun d =>
            List.range ((data_num_per_dataset.getD f []).getD d 0)) =
          (List.range (dataset_num_per_file.getD f 0)).map
            (fun d => (data_num_per_dataset.getD f []).getD d 0) := by
        refine List.map_congr_left ?_
        intro d _
        rw [Function.comp_apply, List.length_range]
      rw [hmap, hds f hf, map_getD_range, hsum f hf]
  have hcanlen : ((List.range file_num).flatMap
      (gimFileBlock data_num_per_file)).length = data_num_total := by
    rw [List.length_flatMap]
    have hmap : (List.range file_num).map
        (List.length ∘ gimFileBlock data_num_per_file) =
        (List.range file_num).map (fun f => data_num_per_file.getD f 0) := by
      refine List.map_congr_left ?_
      intro f _
      rw [Function.comp_apply]
      exact List.length_replicate _ _
    rw [hmap, ← hfn, map_getD_range, htot]
  have hM := gim_eq_canonical data_num_total file_num data_num_per_file
    dataset_num_per_file data_num_per_dataset hblock hcanlen.symm
  have hT0 : (get_global_index_map data_num_total file_num data_num_per_file
      dataset_num_per_file data_num_per_dataset).fileRow =
      (gimTripleList file_num dataset_num_per_file data_num_per_dataset).map
        (fun t => t.1) := by
    rw [hM]
    exact (gimTripleList_map_fst file_num data_num_per_file
      dataset_num_per_file data_num_per_dataset
      (fun f hf => (hblock f hf).1)).symm
  have hT1 : (get_global_index_map data_num_total file_num data_num_per_file
      dataset_num_per_file data_num_per_dataset).datasetRow =
      (gimTripleList file_num dataset_num_per_file data_num_per_dataset).map
        (fun t => t.2.1) := by
    rw [hM]
    exact (gimTripleList_map_snd1 file_num dataset_num_per_file
      data_num_per_dataset).symm
  have hT2 : (get_global_index_map data_num_total file_num data_num_per_file
      dataset_num_per_file data_num_per_dataset).localRow =
      (gimTripleList file_num dataset_num_per_file data_num_per_dataset).map
        (fun t => t.2.2) := by
    rw [hM]
    exact (gimTripleList_map_snd2 file_num dataset_num_per_file
      data_num_per_dataset).symm
  intro E hE
  simp only [get_batch_ends, List.map_cons, List.map_nil,
    List.mem_singleton] at hE
  subst hE
  have hlen1 : ((get_global_index_map data_num_total file_num
      data_num_per_file dataset_num_per_file
      data_num_per_dataset).fileRow.drop s).take (e - s) =
      (((gimTripleList file_num dataset_num_per_file
        data_num_per_dataset).drop s).take (e - s)).map (fun t => t.1) := by
    rw [hT0, map_drop_comm, map_take_comm]
  have hlen2 : ((get_global_index_map data_num_total file_num
      data_num_per_file dataset_num_per_file
      data_num_per_dataset).datasetRow.drop s).take (e - s) =
      (((gimTripleList file_num dataset_num_per_file
        data_num_per_dataset).drop s).take (e - s)).map (fun t => t.2.1) := by
    rw [hT1, map_drop_comm, map_take_comm]
  have hlen3 : ((get_global_index_map data_num_total file_num
      data_num_per_file dataset_num_per_file
      data_num_per_dataset).localRow.drop s).take (e - s) =
      (((gimTripleList file_num dataset_num_per_file
        data_num_per_dataset).drop s).take (e - s)).map (fun t => t.2.2) := by
    rw [hT2, map_drop_comm, map_take_comm]
  refine gbe_window _ _ _ ?_ ?_ ?_
  · rw [hlen1, hlen2, List.length_map, List.length_map]
  · rw [hlen2, hlen3, List.length_map, List.length_map]
  · rw [hlen1, hlen2, hlen3, List.zip_map', List.zip_map']
    have hpe : (fun t : ℕ × ℕ × ℕ => ((t.1, t.2.1), t.2.2)) =
        fun t => ((t.1, t.2.1), t.2.2) := rfl
    rw [← map_take_comm, ← map_drop_comm]
    exact chain'_take _ _ _ (chain'_drop _ _ _
      (gimTripleList_chain' file_num dataset_num_per_file
        data_num_per_dataset))

theorem C7_get_batch_ends_coalesced_witness :
    ([2, 1] : List ℕ).length = 2 ∧
    (∀ f, f < 2 → ([2, 1] : List ℕ).getD f 0 =
      (([[1, 1], [1]] : List (List ℕ)).getD f []).length) ∧
    (∀ f, f < 2 → ([2, 1] : List ℕ).getD f 0 =
      (([[1, 1], [1]] : List (List ℕ)).getD f []).sum) ∧
    3 = ([2, 1] : List ℕ).sum ∧
    (∀ E ∈ get_batch_ends (get_global_index_map 3 2 [2, 1] [2, 1]
        [[1, 1], [1]]) [(1, 3)],
      E.flatMap (fun t =>
        (List.range' t.2.2.1 (t.2.2.2 - t.2.2.1)).map
          (fun loc => ((t.1, t.2.1), loc))) =
        ((((get_global_index_map 3 2 [2, 1] [2, 1]
              [[1, 1], [1]]).fileRow.drop 1).take (3 - 1)).zip
          (((get_global_index_map 3 2 [2, 1] [2, 1]
              [[1, 1], [1]]).datasetRow.drop 1).take (3 - 1))).zip
          (((get_global_index_map 3 2 [2, 1] [2, 1]
              [[1, 1], [1]]).localRow.drop 1).take (3 - 1)) ∧
      (E.map (fun t => (t.1, t.2.1))).Nodup ∧
      ∀ t ∈ E, t.2.2.1 < t.2.2.2) :=
  ⟨by decide, by decide, by decide, by decide,
    C7_get_batch_ends_coalesced 3 2 1 3 [2, 1] [2, 1] [[1, 1], [1]]
      (by decide) (by decide) (by decide) (by decide)⟩

/-- One dataset of an h5 file: its key, `shape[0]` (sample count) and
`shape[1:]` (per-sample feature shape). -/
structure H5Dataset where
  name : String
  shape0 : ℕ
  featureShape : List ℕ
deriving DecidableEq

/-- An h5 file: its path and its datasets, in the order `list(file.keys())`
returns them. -/
structure H5File where
  path : String
  datasets : List H5Dataset
deriving DecidableEq

/-- The h5py environment: the files that `h5py.File(address, 'r')` can open;
an address not in the list raises `IOError`. -/
def fsFind (fs : List H5File) (address : String) : Option H5File :=
  fs.find? (fun f => f.path == address)

/-- `h5file[key]`: `none` models the `KeyError` h5py raises for an absent
dataset name. -/
def lookupDataset (fs : List H5File) (address name : String) :
    Option H5Dataset :=
  (fsFind fs address).bind (fun f => f.datasets.find? (fun d => d.name == name))

inductive ParseError where
  | fileMissing (address : String)
  | duplicatedFiles
  | indexError
  | datasetKeyError (name : String)
  | shapeMismatch (file : String) (dataset : String)
deriving DecidableEq

/-- The dictionary `_parse_h5_data_list` returns: the file list, per file its
`"Datasets"` and `"data_num"` entries, and the reference `"shape"`. -/
structure ParsedList where
  files : List String
  perFile : List (String × List String × List ℕ)
  shape : List ℕ
deriving DecidableEq

/-- Python's character-level slice `line[:n]`. -/
def pyTake (s : String) (n : ℕ) : List Char := s.data.take n

/-- Python's character-level slice `line[n:]`. -/
def pyDrop (s : String) (n : ℕ) : String := String.mk (s.data.drop n)

/-- First loop of `_parse_h5_data_list` (lines 86-112): for each line whose
first five characters are `"File:"`, open the address (raising on failure)
and record `(address, line number)`. -/
def parseLoop1Aux (fs : List H5File) :
    List String → ℕ → Except ParseError (List (String × ℕ))
  | [], _ => .ok []
  | line :: rest, num =>
    if pyTake line 5 = "File:".data then
      match fsFind fs (pyDrop line 5) with
      | some _ =>
        match parseLoop1Aux fs rest (num + 1) with
        | .ok tail => .ok ((pyDrop line 5, num) :: tail)
        | .error e => .error e
      | none => .error (.fileMissing (pyDrop line 5))
    else parseLoop1Aux fs rest (num + 1)

/-- Second loop of `_parse_h5_data_list` (lines 128-150), for one file: the
`"Dataset:"` lines between this `"File:"` line and the next; if there are
none, the keys of the h5 file itself (`default_flag`). -/
def datasetsFor (fs : List H5File) (lines : List String)
    (entries : List (String × ℕ)) (file_idx : ℕ) : List String :=
  let posList := entries.map (fun p => p.2) ++ [lines.length]
  let lo := posList.getD file_idx 0
  let hi := posList.getD (file_idx + 1) 0
  let specified := (((List.range' lo (hi - lo)).map
    (fun i => lines.getD i "")).filter
      (fun line => decide (pyTake line 8 = "Dataset:".data))).map
        (fun line => pyDrop line 8)
  if specified = [] then
    match fsFind fs (entries.getD file_idx ("", 0)).1 with
    | some f => f.datasets.map (fun d => d.name)
    | none => []
  else specified

/-- Third loop of `_parse_h5_data_list`, inner part (lines 164-173): look up
each listed dataset, collect `shape[0]`, and compare `shape[1:]` against the
reference shape. -/
def checkDatasets (fs : List H5File) (refShape : List ℕ) (address : String) :
    List String → Except ParseError (List ℕ)
  | [] => .ok []
  | key :: rest =>
    match lookupDataset fs address key with
    | none => .error (.datasetKeyError key)
    | some ds =>
      if ds.featureShape = refShape then
        match checkDatasets fs refShape address rest with
        | .ok nums => .ok (ds.shape0 :: nums)
        | .error e => .error e
      else .error (.shapeMismatch address key)

/-- Third loop of `_parse_h5_data_list`, outer part (line 162). -/
def parseLoop3 (fs : List H5File) (lines : List String)
    (entries : List (String × ℕ)) (refShape : List ℕ) :
    List ℕ → Except ParseError (List (String × List String × List ℕ))
  | [] => .ok []
  | i :: rest =>
    match checkDatasets fs refShape (entries.getD i ("", 0)).1
        (datasetsFor fs lines entries i) with
    | .error e => .error e
    | .ok nums =>
      match parseLoop3 fs lines entries refShape rest with
      | .error e => .error e
      | .ok tail =>
        .ok (((entries.getD i ("", 0)).1,
          datasetsFor fs lines entries i, nums) :: tail)

/-- Embedding of `util._parse_h5_data_list` (lines 43-176) over stripped
manifest lines and the h5py environment `fs`: loop 1 opens every `"File:"`
address, then duplicates are rejected, loop 2 resolves each file's dataset
names, the reference shape is taken from the first dataset of the first file
(`file_list[0]` / `["Datasets"][0]`, whose failures are Python
`IndexError`s), and loop 3 checks every dataset against it. -/
def _parse_h5_data_list (fs : List H5File) (lines : List String) :
    Except ParseError ParsedList :=
  match parseLoop1Aux fs lines 0 with
  | .error e => .error e
  | .ok entries =>
    if (entries.map (fun p => p.1)).Nodup then
      match (entries.map (fun p => p.1)).head? with
      | none => .error .indexError
      | some addr0 =>
        match (datasetsFor fs lines entries 0).head? with
        | none => .error .indexError
        | some key0 =>
          match lookupDataset fs addr0 key0 with
          | none => .error (.datasetKeyError key0)
          | some ds0 =>
            match parseLoop3 fs lines entries ds0.featureShape
                (List.range entries.length) with
            | .error e => .error e
            | .ok perFile =>
              .ok ⟨entries.map (fun p => p.1), perFile, ds0.featureShape⟩
    else .error .duplicatedFiles

/-- The addresses of the `"File:"` lines, in order. -/
def fileAddresses (lines : List String) : List String :=
  (lines.filter (fun line => decide (pyTake line 5 = "File:".data))).map
    (fun line => pyDrop line 5)

/-- CLAIM C8 (corrected), counterexample: a single listed, openable file that
contains no datasets.  None of the claim's three failure conditions holds —
the file opens, there is no duplicate path, and no dataset is listed whose
shape could mismatch — yet the parser still fails:
`dict_holder[file_list[0]]["Datasets"][0]` raises an `IndexError`, so
"on a valid input it raises nothing" is false. -/
theorem C8_counterexample :
    fsFind [⟨"a", []⟩] "a" ≠ none ∧
    (fileAddresses ["File:a"]).Nodup ∧
    (∀ line ∈ ["File:a"], ¬ pyTake line 8 = "Dataset:".data) ∧
    (∀ f ∈ ([⟨"a", []⟩] : List H5File), f.datasets = []) ∧
    _parse_h5_data_list [⟨"a", []⟩] ["File:a"] =
      .error .indexError := by
  exact ⟨by decide, by decide, by decide, by decide, rfl⟩

lemma parseLoop1_missing (fs : List H5File) :
    ∀ (lines : List String) (num : ℕ),
      (∃ line ∈ lines, pyTake line 5 = "File:".data ∧
        fsFind fs (pyDrop line 5) = none) →
      ∃ e, parseLoop1Aux fs lines num = .error e := by
  intro lines
  induction lines with
  | nil =>
    intro num h
    obtain ⟨line, hmem, -⟩ := h
    exact absurd hmem (List.not_mem_nil _)
  | cons line rest ih =>
    intro num h
    obtain ⟨w, hw, hwp, hwf⟩ := h
    by_cases hp : pyTake line 5 = "File:".data
    · cases hf : fsFind fs (pyDrop line 5) with
      | none =>
        refine ⟨.fileMissing (pyDrop line 5), ?_⟩
        unfold parseLoop1Aux
        rw [if_pos hp]
        simp only [hf]
      | some file =>
        rcases List.mem_cons.mp hw with rfl | hw'
        · rw [hf] at hwf
          exact absurd hwf (by simp)
        · obtain ⟨e, he⟩ := ih (num + 1) ⟨w, hw', hwp, hwf⟩
          refine ⟨e, ?_⟩
          unfold parseLoop1Aux
          rw [if_pos hp]
          simp only [hf, he]
    · rcases List.mem_cons.mp hw with rfl | hw'
      · exact absurd hwp hp
      · obtain ⟨e, he⟩ := ih (num + 1) ⟨w, hw', hwp, hwf⟩
        refine ⟨e, ?_⟩
        unfold parseLoop1Aux
        rw [if_neg hp]
        exact he

lemma parseLoop1_ok_addresses (fs : List H5File) :
    ∀ (lines : List String) (num : ℕ) (entries : List (String × ℕ)),
      parseLoop1Aux fs lines num = .ok entries →
      entries.map (fun p => p.1) = fileAddresses lines := by
  intro lines
  induction lines with
  | nil =>
    intro num entries h
    simp only [parseLoop1Aux] at h
    injection h with h2
    rw [← h2]
    rfl
  | cons line rest ih =>
    intro num entries h
    unfold parseLoop1Aux at h
    by_cases hp : pyTake line 5 = "File:".data
    · rw [if_pos hp] at h
      cases hf : fsFind fs (pyDrop line 5) with
      | none =>
        simp only [hf] at h
        exact Except.noConfusion h
      | some file =>
        simp only [hf] at h
        cases hr : parseLoop1Aux fs rest (num + 1) with
        | error e =>
          simp only [hr] at h
          exact Except.noConfusion h
        | ok tail =>
          simp only [hr] at h
          injection h with h2
          rw [← h2, List.map_cons, ih (num + 1) tail hr]
          unfold fileAddresses
          rw [List.filter_cons_of_pos (by simp [hp]), List.map_cons]
    · rw [if_neg hp] at h
      rw [ih (num + 1) entries h]
      unfold fileAddresses
      rw [List.filter_cons_of_neg (by simp [hp])]

lemma checkDatasets_error (fs : List H5File) (refShape : List ℕ)
    (address : String) :
    ∀ names : List String,
      (∃ key ∈ names, lookupDataset fs address key = none ∨
        ∃ ds, lookupDataset fs address key = some ds ∧
          ds.featureShape ≠ refShape) →
      ∃ e, checkDatasets fs refShape address names = .error e := by
  intro names
  induction names with
  | nil =>
    intro h
    obtain ⟨key, hk, -⟩ := h
    exact absurd hk (List.not_mem_nil _)
  | cons k rest ih =>
    intro h
    obtain ⟨key, hk, hbad⟩ := h
    cases hl : lookupDataset fs address k with
    | none =>
      exact ⟨.datasetKeyError k, by simp only [checkDatasets, hl]⟩
    | some ds =>
      by_cases hsh : ds.featureShape = refShape
      · have hkr : key ∈ rest := by
          rcases List.mem_cons.mp hk with rfl | hmem
          · rcases hbad with hn | ⟨ds', hd', hne⟩
            · rw [hl] at hn
              exact absurd hn (by simp)
            · rw [hl] at hd'
              injection hd' with hd''
              rw [hd''] at hsh
              exact absurd hsh hne
          · exact hmem
        obtain ⟨e, he⟩ := ih ⟨key, hkr, hbad⟩
        refine ⟨e, ?_⟩
        simp only [checkDatasets, hl, if_pos hsh, he]
      · exact ⟨.shapeMismatch address k, by
          simp only [checkDatasets, hl, if_neg hsh]⟩

lemma parseLoop3_error (fs : List H5File) (lines : List String)
    (entries : List (String × ℕ)) (refShape : List ℕ) :
    ∀ idxs : List ℕ,
      (∃ i ∈ idxs, ∃ e,
        checkDatasets fs refShape (entries.getD i ("", 0)).1
          (datasetsFor fs lines entries i) = .error e) →
      ∀ l, parseLoop3 fs lines entries refShape idxs ≠ .ok l := by
  intro idxs
  induction idxs with
  | nil =>
    intro h
    obtain ⟨i, hi, -⟩ := h
    exact absurd hi (List.not_mem_nil _)
  | cons j rest ih =>
    intro h l hok
    obtain ⟨i, hi, e, he⟩ := h
    cases hc : checkDatasets fs refShape (entries.getD j ("", 0)).1
        (datasetsFor fs lines entries j) with
    | error e' =>
      simp only [parseLoop3, hc] at hok
      exact Except.noConfusion hok
    | ok nums =>
      simp only [parseLoop3, hc] at hok
      rcases List.mem_cons.mp hi with rfl | hi'
      · rw [he] at hc
        exact Except.noConfusion hc
      · cases hr : parseLoop3 fs lines entries refShape rest with
        | error e' =>
          simp only [hr] at hok
          exact Except.noConfusion hok
        | ok tail => exact ih ⟨i, hi', e, he⟩ tail hr

lemma checkDatasets_ok (fs : List H5File) (refShape : List ℕ)
    (address : String) :
    ∀ names : List String,
      (∀ key ∈ names, ∃ ds, lookupDataset fs address key = some ds ∧
        ds.featureShape = refShape) →
      ∃ nums, checkDatasets fs refShape address names = .ok nums := by
  intro names
  induction names with
  | nil => intro _; exact ⟨[], rfl⟩
  | cons k rest ih =>
    intro h
    obtain ⟨ds, hd, hsh⟩ := h k (List.mem_cons_self k rest)
    obtain ⟨nums, hn⟩ := ih (fun key hk => h key (List.mem_cons_of_mem k hk))
    refine ⟨ds.shape0 :: nums, ?_⟩
    simp only [checkDatasets, hd, if_pos hsh, hn]

lemma parseLoop3_ok (fs : List H5File) (lines : List String)
    (entries : List (String × ℕ)) (refShape : List ℕ) :
    ∀ idxs : List ℕ,
      (∀ i ∈ idxs, ∃ nums,
        checkDatasets fs refShape (entries.getD i ("", 0)).1
          (datasetsFor fs lines entries i) = .ok nums) →
      ∃ l, parseLoop3 fs lines entries refShape idxs = .ok l := by
  intro idxs
  induction idxs with
  | nil => intro _; exact ⟨[], rfl⟩
  | cons j rest ih =>
    intro h
    obtain ⟨nums, hn⟩ := h j (List.mem_cons_self j rest)
    obtain ⟨tail, ht⟩ := ih (fun i hi => h i (List.mem_cons_of_mem j hi))
    refine ⟨((entries.getD j ("", 0)).1,
      datasetsFor fs lines entries j, nums) :: tail, ?_⟩
    simp only [parseLoop3, hn, ht]

/-- CLAIM C8 (corrected), amended: the parser fails, returning no parsed
result, whenever (a) a `"File:"` line's address cannot be opened, (b) the
file list contains a duplicate path, (c) no `"File:"` line is present at all
(`file_list[0]` raises `IndexError`), (d) the first file's dataset list is
empty (`["Datasets"][0]` raises `IndexError`), (e) any listed dataset is
absent from its file (`h5file[key]` raises `KeyError`), or (f) any listed
dataset has a per-sample feature shape different from that of the first
dataset of the first file; and (g) it succeeds when every `"File:"` address
opens, the addresses are distinct, the first file's dataset list is nonempty
with its first dataset present, and every listed dataset exists with the
reference feature shape.  The extra premises in (g) beyond the claim's three
conditions are needed: the original claim's "on a valid input it raises
nothing" is false (see the counterexample). -/
theorem C8_parse_h5_data_list (fs : List H5File) (lines : List String) :
    ((∃ line ∈ lines, pyTake line 5 = "File:".data ∧
        fsFind fs (pyDrop line 5) = none) →
      ∀ P, _parse_h5_data_list fs lines ≠ .ok P) ∧
    (¬ (fileAddresses lines).Nodup →
      ∀ P, _parse_h5_data_list fs lines ≠ .ok P) ∧
    ((∀ line ∈ lines, ¬ pyTake line 5 = "File:".data) →
      ∀ P, _parse_h5_data_list fs lines ≠ .ok P) ∧
    (∀ entries, parseLoop1Aux fs lines 0 = .ok entries →
      datasetsFor fs lines entries 0 = [] →
      ∀ P, _parse_h5_data_list fs lines ≠ .ok P) ∧
    (∀ entries, parseLoop1Aux fs lines 0 = .ok entries →
      ∀ i, i < entries.length →
      ∀ key ∈ datasetsFor fs lines entries i,
      lookupDataset fs (entries.getD i ("", 0)).1 key = none →
      ∀ P, _parse_h5_data_list fs lines ≠ .ok P) ∧
    (∀ entries, parseLoop1Aux fs lines 0 = .ok entries →
      ∀ addr0, (entries.map (fun p => p.1)).head? = some addr0 →
      ∀ key0, (datasetsFor fs lines entries 0).head? = some key0 →
      ∀ ds0, lookupDataset fs addr0 key0 = some ds0 →
      ∀ i, i < entries.length →
      ∀ key ∈ datasetsFor fs lines entries i,
      ∀ ds, lookupDataset fs (entries.getD i ("", 0)).1 key = some ds →
      ds.featureShape ≠ ds0.featureShape →
      ∀ P, _parse_h5_data_list fs lines ≠ .ok P) ∧
    (∀ entries, parseLoop1Aux fs lines 0 = .ok entries →
      (entries.map (fun p => p.1)).Nodup →
      ∀ addr0, (entries.map (fun p => p.1)).head? = some addr0 →
      ∀ key0, (datasetsFor fs lines entries 0).head? = some key0 →
      ∀ ds0, lookupDataset fs addr0 key0 = some ds0 →
      (∀ i, i < entries.length →
        ∀ key ∈ datasetsFor fs lines entries i,
        ∃ ds, lookupDataset fs (entries.getD i ("", 0)).1 key = some ds ∧
          ds.featureShape = ds0.featureShape) →
      ∃ P, _parse_h5_data_list fs lines = .ok P) := by
  refine ⟨?_, ?_, ?_, ?_, ?_, ?_, ?_⟩
  · intro hmiss P hok
    obtain ⟨e, he⟩ := parseLoop1_missing fs lines 0 hmiss
    unfold _parse_h5_data_list at hok
    simp only [he] at hok
    exact Except.noConfusion hok
  · intro hdup P hok
    unfold _parse_h5_data_list at hok
    cases h1 : parseLoop1Aux fs lines 0 with
    | error e =>
      simp only [h1] at hok
      exact Except.noConfusion hok
    | ok entries =>
      simp only [h1] at hok
      rw [if_neg (by
        rw [parseLoop1_ok_addresses fs lines 0 entries h1]
        exact hdup)] at hok
      exact Except.noConfusion hok
  · intro hnof P hok
    unfold _parse_h5_data_list at hok
    cases h1 : parseLoop1Aux fs lines 0 with
    | error e =>
      simp only [h1] at hok
      exact Except.noConfusion hok
    | ok entries =>
      simp only [h1] at hok
      have hfa : fileAddresses lines = [] := by
        unfold fileAddresses
        have hfil : lines.filter
            (fun line => decide (pyTake line 5 = "File:".data)) = [] := by
          rw [List.filter_eq_nil_iff]
          intro line hline
          simp only [decide_eq_true_eq]
          exact hnof line hline
        rw [hfil, List.map_nil]
      have hmap : entries.map (fun p => p.1) = [] :=
        (parseLoop1_ok_addresses fs lines 0 entries h1).trans hfa
      rw [if_pos (by rw [hmap]; exact List.nodup_nil)] at hok
      simp only [hmap, List.head?_nil] at hok
      exact Except.noConfusion hok
  · intro entries h1 hempty P hok
    unfold _parse_h5_data_list at hok
    simp only [h1] at hok
    by_cases h2 : (entries.map (fun p => p.1)).Nodup
    · rw [if_pos h2] at hok
      cases hh : (entries.map (fun p => p.1)).head? with
      | none =>
        simp only [hh] at hok
        exact Except.noConfusion hok
      | some addr0 =>
        simp only [hh, hempty, List.head?_nil] at hok
        exact Except.noConfusion hok
    · rw [if_neg h2] at hok
      exact Except.noConfusion hok
  · intro entries h1 i hi key hkey hnone P hok
    unfold _parse_h5_data_list at hok
    simp only [h1] at hok
    by_cases h2 : (entries.map (fun p => p.1)).Nodup
    · rw [if_pos h2] at hok
      cases hh : (entries.map (fun p => p.1)).head? with
      | none =>
        simp only [hh] at hok
        exact Except.noConfusion hok
      | some addr0 =>
        simp only [hh] at hok
        cases hk0 : (datasetsFor fs lines entries 0).head? with
        | none =>
          simp only [hk0] at hok
          exact Except.noConfusion hok
        | some key0 =>
          simp only [hk0] at hok
          cases hl0 : lookupDataset fs addr0 key0 with
          | none =>
            simp only [hl0] at hok
            exact Except.noConfusion hok
          | some ds0 =>
            simp only [hl0] at hok
            have herr : ∃ e, checkDatasets fs ds0.featureShape
                (entries.getD i ("", 0)).1
                (datasetsFor fs lines entries i) = .error e :=
              checkDatasets_error fs ds0.featureShape _ _
                ⟨key, hkey, Or.inl hnone⟩
            have hnot := parseLoop3_error fs lines entries ds0.featureShape
              (List.range entries.length) ⟨i, List.mem_range.mpr hi, herr⟩
            cases hp3 : parseLoop3 fs lines entries ds0.featureShape
                (List.range entries.length) with
            | error e =>
              simp only [hp3] at hok
              exact Except.noConfusion hok
            | ok l => exact hnot l hp3
    · rw [if_neg h2] at hok
      exact Except.noConfusion hok
  · intro entries h1 addr0 h3 key0 h4 ds0 h5 i hi key hkey ds hds hne P hok
    unfold _parse_h5_data_list at hok
    simp only [h1] at hok
    by_cases h2 : (entries.map (fun p => p.1)).Nodup
    · rw [if_pos h2] at hok
      simp only [h3, h4, h5] at hok
      have herr : ∃ e, checkDatasets fs ds0.featureShape
          (entries.getD i ("", 0)).1
          (datasetsFor fs lines entries i) = .error e :=
        checkDatasets_error fs ds0.featureShape _ _
          ⟨key, hkey, Or.inr ⟨ds, hds, hne⟩⟩
      have hnot := parseLoop3_error fs lines entries ds0.featureShape
        (List.range entries.length) ⟨i, List.mem_range.mpr hi, herr⟩
      cases hp3 : parseLoop3 fs lines entries ds0.featureShape
          (List.range entries.length) with
      | error e =>
        simp only [hp3] at hok
        exact Except.noConfusion hok
      | ok l => exact hnot l hp3
    · rw [if_neg h2] at hok
      exact Except.noConfusion hok
  · intro entries h1 h2 addr0 h3 key0 h4 ds0 h5 h6
    unfold _parse_h5_data_list
    simp only [h1]
    rw [if_pos h2]
    simp only [h3, h4, h5]
    obtain ⟨l, hl⟩ := parseLoop3_ok fs lines entries ds0.featureShape
      (List.range entries.length) (fun i hi =>
        checkDatasets_ok fs ds0.featureShape _ _
          (fun key hk => h6 i (List.mem_range.mp hi) key hk))
    simp only [hl]
    exact ⟨_, rfl⟩

theorem C8_parse_h5_data_list_witness :
    parseLoop1Aux [⟨"a", [⟨"x", 4, [2]⟩]⟩, ⟨"b", [⟨"z", 5, [2]⟩]⟩]
        ["File:a", "Dataset:x", "File:b"] 0 =
      .ok [("a", 0), ("b", 2)] ∧
    (([("a", 0), ("b", 2)] : List (String × ℕ)).map (fun p => p.1)).Nodup ∧
    ∃ P, _parse_h5_data_list
        [⟨"a", [⟨"x", 4, [2]⟩]⟩, ⟨"b", [⟨"z", 5, [2]⟩]⟩]
        ["File:a", "Dataset:x", "File:b"] = .ok P := by
  refine ⟨rfl, by decide, ?_⟩
  refine (C8_parse_h5_data_list
      [⟨"a", [⟨"x", 4, [2]⟩]⟩, ⟨"b", [⟨"z", 5, [2]⟩]⟩]
      ["File:a", "Dataset:x", "File:b"]).2.2.2.2.2.2
    [("a", 0), ("b", 2)] rfl (by decide) "a" rfl "x" rfl
    ⟨"x", 4, [2]⟩ rfl ?_
  intro i hi key hk
  have hi2 : i = 0 ∨ i = 1 := by
    simp only [List.length_cons, List.length_nil] at hi
    omega
  rcases hi2 with rfl | rfl
  · have he : datasetsFor [⟨"a", [⟨"x", 4, [2]⟩]⟩, ⟨"b", [⟨"z", 5, [2]⟩]⟩]
        ["File:a", "Dataset:x", "File:b"] [("a", 0), ("b", 2)] 0 =
        ["x"] := rfl
    rw [he, List.mem_singleton] at hk
    subst hk
    exact ⟨⟨"x", 4, [2]⟩, rfl, rfl⟩
  · have he : datasetsFor [⟨"a", [⟨"x", 4, [2]⟩]⟩, ⟨"b", [⟨"z", 5, [2]⟩]⟩]
        ["File:a", "Dataset:x", "File:b"] [("a", 0), ("b", 2)] 1 =
        ["z"] := rfl
    rw [he, List.mem_singleton] at hk
    subst hk
    exact ⟨⟨"z", 5, [2]⟩, rfl, rfl⟩

end DiffusionMap
